import Mathlib

/-!
Verification of `cadquery/occ_impl/assembly.py`.

This file gives a shallow embedding of the assembly-compilation module:
the `Color` value type, the hierarchical document compiler `toCAF`
(with its deduplication caches, color placement and material handling),
the fusion compiler `toFusedCAF` (empty / single / multi shape branches and
the per-face color reconciliation pass), and the topological connector
`imprint` (identity-keyed name map and origin map).

External collaborators (the OCCT kernel operations, the document tools and
the shape capability surface from `shapes.py`, which is not part of the
sources under verification) are modelled as explicit parameters or as
abstract identifiers, following the contracts stated for them in the design
document.  Side effects on the OCAF document are modelled as an explicit
event trace, so that theorems can talk about which labels received shapes,
colors and materials.
-/

namespace CadQuery

/-! ## Color (`Color.__init__`, `Color.toTuple`) -/

/-- RGBA channels of the OCCT `Quantity_ColorRGBA` object wrapped by `Color`
(channels modelled as rationals; each channel lies in `[0,1]` in the source). -/
structure ColorQ where
  r : ℚ
  g : ℚ
  b : ℚ
  a : ℚ
deriving Repr, DecidableEq

/-- Python truthiness of an optional numeric value: `None` and `0` are falsy,
every other number is truthy.  Used for `kwargs.get("a")` and for `if tol:`. -/
def pyTruthy (x : Option ℚ) : Bool :=
  match x with
  | none => false
  | some v => decide (v ≠ 0)

/-- `Quantity_ColorRGBA.SetAlpha`. -/
def ColorQ.setAlpha (c : ColorQ) (v : ℚ) : ColorQ := { c with a := v }

/-- `Color.__init__` with exactly three positional arguments `r, g, b` and the
optional keyword argument `a` (read via `kwargs.get("a")`): the source builds
`Quantity_ColorRGBA(r, g, b, 1)` and then calls `SetAlpha` only when the
keyword value is truthy. -/
def colorInit3 (r g b : ℚ) (kwA : Option ℚ) : ColorQ :=
  let wrapped : ColorQ := ⟨r, g, b, 1⟩
  if pyTruthy kwA then wrapped.setAlpha (kwA.getD 0) else wrapped

/-- `Color.__init__` with exactly four positional arguments: the source builds
`Quantity_ColorRGBA(r, g, b, a)` directly. -/
def colorInit4 (r g b a : ℚ) : ColorQ := ⟨r, g, b, a⟩

/-- `Color.toTuple`: the `(red, green, blue, alpha)` channel tuple. -/
def ColorQ.toTuple (c : ColorQ) : ℚ × ℚ × ℚ × ℚ := (c.r, c.g, c.b, c.a)

end CadQuery

namespace CadQuery

/-! ## Claims C5 and C10 -/

/-! ## The document compiler `toCAF`

The assembly tree is consumed through the `AssemblyProtocol` capability
surface (`name`, `loc`, `obj`, `shapes`, `color`, `material`, `children`).
`Color`, `Shape`/`Workplane` and `Material` objects are used as Python
dictionary keys in `toCAF`, which keys them by object identity (none of the
wrapper classes overrides `__hash__`/`__eq__` in this module), so the model
identifies them by opaque identifiers (`Nat`).  Locations are likewise
opaque.  OCAF document labels are modelled as naturals handed out by a
fresh-label counter, and every operation performed on the document tools
(`ShapeTool`, `ColorTool`, `MaterialTool`, `VisMaterialTool`) is recorded in
an event trace. -/

/-- A location value passed to `XCAFDoc_ShapeTool.AddComponent`: either the
identity `TopLoc_Location()` or the location of an assembly node. -/
inductive LocV where
  | ident
  | of (l : ℕ)
deriving Repr, DecidableEq

/-- Assembly tree node, as consumed through `AssemblyProtocol`: name, local
location, optional owned object (identity), shapes owned at the node
(identities), optional color (identity), optional material (identity), and
the ordered child nodes. -/
inductive Assembly where
  | node (name : String) (loc : ℕ) (obj : Option ℕ) (shapes : List ℕ)
      (color : Option ℕ) (material : Option ℕ) (children : List Assembly)
deriving Repr

/-- Modelled from the spec: the compound payload built for a part by
`Compound.makeCompound(el.shapes)` and optionally meshed in place
(`shapes.py` is not among the sources; the design document specifies shape
copy / mesh as kernel capabilities, meshing idempotent). -/
structure Cpd where
  shapes : List ℕ
  meshed : Bool
deriving Repr, DecidableEq

/-- `Compound.makeCompound`, modelled from the spec. -/
def Cpd.make (ss : List ℕ) : Cpd := ⟨ss, false⟩

/-- `Compound.mesh`, modelled from the spec (tolerances do not affect which
records are created, so they are not tracked). -/
def Cpd.meshIt (c : Cpd) : Cpd := { c with meshed := true }

/-- `Shape.copy(mesh)`, modelled from the spec. -/
def Cpd.copy (mesh : Bool) (c : Cpd) : Cpd := if mesh then c.meshIt else c

/-- One recorded operation on the document tools. -/
inductive Ev where
  | newShape (lab : ℕ)
  | setName (lab : ℕ) (nm : String)
  | setShape (lab : ℕ) (c : Cpd)
  | setColor (lab : ℕ) (col : ℕ)
  | addMat (recLab : ℕ) (m : ℕ)
  | addVisMat (recLab : ℕ) (m : ℕ)
  | setMat (lab : ℕ) (recLab : ℕ)
  | setVisMat (lab : ℕ) (recLab : ℕ)
  | addComponent (parent : ℕ) (child : ℕ) (loc : LocV)
deriving Repr, DecidableEq

/-- Document state threaded through the recursive walk: the fresh-label
counter, the four caches declared at the top of `toCAF` (`unique_objs`,
`compounds`, `materials`, `visualization_materials`) and the event trace
(most recent event first). -/
structure DocSt where
  fresh : ℕ
  unique_objs : List ((Option ℕ × ℕ) × ℕ)
  compounds : List (ℕ × Cpd)
  materials : List (ℕ × ℕ)
  visualization_materials : List (ℕ × ℕ)
  trace : List Ev
deriving Repr, DecidableEq

/-- The empty document state right after `InitDocument`. -/
def DocSt.init : DocSt := ⟨0, [], [], [], [], []⟩

/-- Association-list lookup, the model of a Python dictionary read. -/
def alookup {α β : Type} [DecidableEq α] : List (α × β) → α → Option β
  | [], _ => none
  | e :: es, k => if e.1 = k then some e.2 else alookup es k

/-- `tool.NewShape()` (and every other label-allocating tool call): hand out
the next label and record the allocation. -/
def DocSt.newShape (s : DocSt) : ℕ × DocSt :=
  (s.fresh, { s with fresh := s.fresh + 1, trace := Ev.newShape s.fresh :: s.trace })

/-- Record an event that allocates no label. -/
def DocSt.emit (s : DocSt) (e : Ev) : DocSt := { s with trace := e :: s.trace }

/-- `material_tool.AddMaterial(...)`: allocate a label for a new material
record. -/
def DocSt.addMaterialRec (s : DocSt) (m : ℕ) : ℕ × DocSt :=
  (s.fresh, { s with fresh := s.fresh + 1, trace := Ev.addMat s.fresh m :: s.trace })

/-- `vis_material_tool.AddMaterial(...)`: allocate a label for a new visual
material record. -/
def DocSt.addVisMaterialRec (s : DocSt) (m : ℕ) : ℕ × DocSt :=
  (s.fresh, { s with fresh := s.fresh + 1, trace := Ev.addVisMat s.fresh m :: s.trace })

/-- The compiler flags of `toCAF` that influence record creation. -/
structure Cfg where
  coloredSTEP : Bool
  mesh : Bool
deriving Repr, DecidableEq

/-- Lines 350–359 of the source: obtain the (possibly meshed) compound for a
part, reusing the `compounds` cache keyed by the shape alone (`key1`) so that
the same object referenced twice is not meshed twice. -/
def getCompound (cfg : Cfg) (shapes : List ℕ) (key1 : ℕ) (s : DocSt) : Cpd × DocSt :=
  match alookup s.compounds key1 with
  | some c => (Cpd.copy cfg.mesh c, s)
  | none =>
    let c0 := Cpd.make shapes
    let c1 := if cfg.mesh then c0.meshIt else c0
    (c1, { s with compounds := (key1, c1) :: s.compounds })

/-- Lines 368–386 of the source: material handling for a freshly created part
label.  The logical material record is cached in `materials`; the visual
material record is looked up in `visualization_materials` but the source
never stores into that cache, so a cache miss creates a new record every
time. -/
def handleMaterials (material : Option ℕ) (lab : ℕ) (s : DocSt) : DocSt :=
  match material with
  | none => s
  | some m =>
    let mres :=
      match alookup s.materials m with
      | some ml => (ml, s)
      | none =>
        let p := s.addMaterialRec m
        (p.1, { p.2 with materials := (m, p.1) :: p.2.materials })
    let material_label := mres.1
    let s1 := mres.2
    let vres :=
      match alookup s1.visualization_materials m with
      | some vl => (vl, s1)
      | none => s1.addVisMaterialRec m
    let visualization_material_label := vres.1
    let s2 := vres.2
    (s2.emit (.setMat lab material_label)).emit (.setVisMat lab visualization_material_label)

/-- Lines 343–386 of the source: get or register the unique part for the
deduplication key `(current_color, el.obj)`.  On a cache miss a new label is
allocated, the compound is attached and named, the label is stored in
`unique_objs`, the color is attached when exporting to STEP, and materials
are handled. -/
def registerPart (cfg : Cfg) (name : String) (shapes : List ℕ) (material : Option ℕ)
    (current_color : Option ℕ) (o : ℕ) (s : DocSt) : ℕ × DocSt :=
  let key0 : Option ℕ × ℕ := (current_color, o)
  let key1 := o
  match alookup s.unique_objs key0 with
  | some lab => (lab, s)
  | none =>
    let p := s.newShape
    let lab := p.1
    let cres := getCompound cfg shapes key1 p.2
    let compound := cres.1
    let s1 := (cres.2.emit (.setShape lab compound)).emit (.setName lab (name ++ "_part"))
    let s2 := { s1 with unique_objs := (key0, lab) :: s1.unique_objs }
    let s3 :=
      match cfg.coloredSTEP, current_color with
      | true, some cc => s2.emit (.setColor lab cc)
      | _, _ => s2
    (lab, handleMaterials material lab s3)

/-- Line 339 of the source: `current_color = el.color if el.color else color`,
the effective color of a node (own color, else the inherited one). -/
def effColor (own inh : Option ℕ) : Option ℕ :=
  match own with
  | some c => some c
  | none => inh

/-- Lines 341–388 of the source, the `if el.obj:` block: register (or reuse)
the unique part for this node and link it as a component of the structural
node with the identity location. -/
def handleObj (cfg : Cfg) (nm2 : String) (shapes : List ℕ) (material : Option ℕ)
    (current_color : Option ℕ) (obj : Option ℕ) (subassy : ℕ) (s : DocSt) : DocSt :=
  match obj with
  | none => s
  | some o =>
    let pr := registerPart cfg nm2 shapes material current_color o s
    pr.2.emit (.addComponent subassy pr.1 .ident)

/-- Lines 390–392 of the source: when *not* exporting to STEP, attach the
effective color (if present) to the structural node. -/
def structColor (cfg : Cfg) (current_color : Option ℕ) (subassy : ℕ) (s : DocSt) : DocSt :=
  match cfg.coloredSTEP, current_color with
  | false, some cc => s.emit (.setColor subassy cc)
  | _, _ => s

/-- Lines 398–400 of the source: link the structural node to its ancestor
with the node's own location, when an ancestor exists. -/
def linkToAncestor (ancestor : Option ℕ) (subassy : ℕ) (loc : ℕ) (s : DocSt) : DocSt :=
  match ancestor with
  | some anc => s.emit (.addComponent anc subassy (.of loc))
  | none => s

mutual

/-- The nested function `_toCAF(el, ancestor, color)`: create and name the
structural node, resolve the effective color, register and link the part when
the node owns an object, attach the color to the structural node when not
exporting to STEP, recurse into children, and finally link the structural
node under its ancestor with the node's location. -/
def toCAFnode (cfg : Cfg) : Assembly → Option ℕ → Option ℕ → DocSt → ℕ × DocSt
  | .node name loc obj shapes color material children, ancestor, inh, s0 =>
    let p := s0.newShape
    let subassy := p.1
    let s1 := p.2.emit (.setName subassy name)
    let current_color := effColor color inh
    let s2 := handleObj cfg name shapes material current_color obj subassy s1
    let s3 := structColor cfg current_color subassy s2
    let s4 := toCAFchildren cfg children subassy current_color s3
    (subassy, linkToAncestor ancestor subassy loc s4)

/-- The `for child in el.children` loop inside `_toCAF`. -/
def toCAFchildren (cfg : Cfg) : List Assembly → ℕ → Option ℕ → DocSt → DocSt
  | [], _, _, s => s
  | c :: cs, parent, inh, s =>
    toCAFchildren cfg cs parent inh (toCAFnode cfg c (some parent) inh s).2

end

/-- `toCAF(assy, coloredSTEP, mesh, ...)`: run the recursive walk on a fresh
document and return the top label together with the final document state. -/
def toCAF (cfg : Cfg) (assy : Assembly) : ℕ × DocSt :=
  toCAFnode cfg assy none none DocSt.init

/-! ### Observations on the document trace -/

/-- All document labels mentioned by an event. -/
def evLabels : Ev → List ℕ
  | .newShape l => [l]
  | .setName l _ => [l]
  | .setShape l _ => [l]
  | .setColor l _ => [l]
  | .addMat r _ => [r]
  | .addVisMat r _ => [r]
  | .setMat l r => [l, r]
  | .setVisMat l r => [l, r]
  | .addComponent p c _ => [p, c]

/-- Every label mentioned by the event is below `n`. -/
def EvBound (n : ℕ) (e : Ev) : Prop := ∀ l ∈ evLabels e, l < n

/-- Number of geometry records created (`tool.SetShape` calls). -/
def countSetShape (tr : List Ev) : ℕ :=
  (tr.filter fun e => match e with | .setShape _ _ => true | _ => false).length

/-- Labels that received a color (`ctool.SetColor` calls). -/
def colorLabs (tr : List Ev) : List ℕ :=
  tr.filterMap fun e => match e with | .setColor l _ => some l | _ => none

/-- Labels that received a shape payload (`tool.SetShape` calls); these are
exactly the geometry records, structural nodes never receive a payload. -/
def geomLabs (tr : List Ev) : List ℕ :=
  tr.filterMap fun e => match e with | .setShape l _ => some l | _ => none

/-- Child labels of `AddComponent` calls made with the identity location;
these are exactly the part-record references made from structural nodes. -/
def partComponentLabs (tr : List Ev) : List ℕ :=
  tr.filterMap fun e => match e with | .addComponent _ c .ident => some c | _ => none

/-- Number of logical material records created for material `m`. -/
def countAddMatFor (tr : List Ev) (m : ℕ) : ℕ :=
  (tr.filter fun e => match e with | .addMat _ m2 => m2 = m | _ => false).length

/-- Number of visual material records created for material `m`. -/
def countAddVisMatFor (tr : List Ev) (m : ℕ) : ℕ :=
  (tr.filter fun e => match e with | .addVisMat _ m2 => m2 = m | _ => false).length

/-- Number of parts that reference a material record (`SetMaterial` calls). -/
def countSetMat (tr : List Ev) : ℕ :=
  (tr.filter fun e => match e with | .setMat _ _ => true | _ => false).length

/-- Number of parts that reference a visual material record
(`SetShapeMaterial` calls). -/
def countSetVisMat (tr : List Ev) : ℕ :=
  (tr.filter fun e => match e with | .setVisMat _ _ => true | _ => false).length

mutual

/-- Number of nodes of the assembly whose effective color (own color, else the
inherited one) is present, i.e. the nodes `toCAF` attaches a color for. -/
def coloredCount : Assembly → Option ℕ → ℕ
  | .node _ _ _ _ color _ children, inh =>
    let cur := effColor color inh
    (if cur.isSome then 1 else 0) + coloredCountList children cur

/-- `coloredCount` summed over a child list. -/
def coloredCountList : List Assembly → Option ℕ → ℕ
  | [], _ => 0
  | c :: cs, inh => coloredCount c inh + coloredCountList cs inh

end

/-- Invariant maintained by the document state throughout one `toCAF` call:
the deduplication keys of `unique_objs` are pairwise distinct; geometry
records are created exactly once per `unique_objs` entry; every label
mentioned anywhere is below the fresh counter; the visual-materials cache is
(vacuously) empty because the source never stores into it; every part
reference from a structural node points at a registered unique part; and
colors sit on geometry records (exactly one per colored key, set once at
record creation) when exporting to STEP, and only on structural nodes
otherwise. -/
structure Inv (cfg : Cfg) (s : DocSt) : Prop where
  nodupKeys : (s.unique_objs.map Prod.fst).Nodup
  shapeCount : countSetShape s.trace = s.unique_objs.length
  traceBound : ∀ e ∈ s.trace, EvBound s.fresh e
  uoBound : ∀ e ∈ s.unique_objs, e.2 < s.fresh
  matBound : ∀ e ∈ s.materials, e.2 < s.fresh
  visEmpty : s.visualization_materials = []
  partComp : ∀ l ∈ partComponentLabs s.trace, l ∈ s.unique_objs.map Prod.snd
  colorGeom : cfg.coloredSTEP = true → ∀ l ∈ colorLabs s.trace, l ∈ geomLabs s.trace
  colorNodup : cfg.coloredSTEP = true → (colorLabs s.trace).Nodup
  colorCountT : cfg.coloredSTEP = true →
      (colorLabs s.trace).length = (s.unique_objs.filter fun e => e.1.1.isSome).length
  colorStruct : cfg.coloredSTEP = false → ∀ l ∈ colorLabs s.trace, l ∉ geomLabs s.trace

/-- Induction hypothesis shape for one node of the recursive walk: from a
bounded ancestor label and an invariant state, the walk preserves the
invariant, moves the fresh counter forward, returns a label below the new
fresh counter, and (when colors go on structure) attaches exactly one color
per colored node. -/
def NodeSpec (cfg : Cfg) (a : Assembly) : Prop :=
  ∀ anc inh s, (∀ l, anc = some l → l < s.fresh) → Inv cfg s →
    Inv cfg (toCAFnode cfg a anc inh s).2
    ∧ s.fresh ≤ (toCAFnode cfg a anc inh s).2.fresh
    ∧ (toCAFnode cfg a anc inh s).1 < (toCAFnode cfg a anc inh s).2.fresh
    ∧ (cfg.coloredSTEP = false →
        (colorLabs (toCAFnode cfg a anc inh s).2.trace).length
          = (colorLabs s.trace).length + coloredCount a inh)

/-- `NodeSpec` lifted to the child loop. -/
def ChildrenSpec (cfg : Cfg) (l : List Assembly) : Prop :=
  ∀ parent inh s, parent < s.fresh → Inv cfg s →
    Inv cfg (toCAFchildren cfg l parent inh s)
    ∧ s.fresh ≤ (toCAFchildren cfg l parent inh s).fresh
    ∧ (cfg.coloredSTEP = false →
        (colorLabs (toCAFchildren cfg l parent inh s).trace).length
          = (colorLabs s.trace).length + coloredCountList l inh)

/-- Concrete assembly used to exhibit the visual-material duplication: a root
with two children owning distinct shapes but sharing one material. -/
def sharedMaterialAssy : Assembly :=
  .node "root" 0 none [] none none
    [ .node "a" 1 (some 10) [10] none (some 7) [],
      .node "b" 2 (some 11) [11] none (some 7) [] ]

/-! ## The fusion compiler `toFusedCAF`

`toFusedCAF` consumes the assembly through its iteration protocol (one
`(shape, name, location, color)` tuple per leaf shape) and drives the kernel
fuse operation `BRepAlgoAPI_Fuse` plus the document tools.  The kernel and
the shape capability surface (`ShapeType`, `Faces`, `moved`, `copy`,
`Shape.fuse`) are external, so they are modelled as an explicit `FuseKernel`
parameter; faces are opaque identifiers.  Registration of faces as
sub-shapes and face coloring are recorded as an event trace. -/

/-- A shape as seen by `toFusedCAF`: its `ShapeType()` string and the faces
enumerated by `Faces()` (opaque face identifiers). -/
structure FShape where
  stype : String
  faces : List ℕ
deriving Repr, DecidableEq

/-- Modelled from the spec: `Shape.ShapeType()` (`shapes.py` not in src). -/
def FShape.ShapeType (s : FShape) : String := s.stype

/-- Modelled from the spec: `Shape.Faces()` (`shapes.py` not in src). -/
def FShape.Faces (s : FShape) : List ℕ := s.faces

/-- Modelled from the spec: `Compound.makeCompound` — a compound shape whose
faces are the faces of its members (`shapes.py` not in src). -/
def makeCompound (ss : List FShape) : FShape :=
  ⟨"Compound", (ss.map FShape.Faces).flatten⟩

/-- State of the `BRepAlgoAPI_Fuse` operation object: configured fuzzy value
and glue mode, argument and tool lists, and whether `Build()` was called. -/
structure FuseOpSt where
  fuzzy : Option ℚ
  glue : Bool
  args : List FShape
  tools : List FShape
  built : Bool
deriving Repr, DecidableEq

/-- The external kernel and document capabilities consumed by `toFusedCAF`:
shape move/copy, `Shape.fuse` (self-union), the fuse operation result and its
per-face deleted/modified/generated queries, and whether registering a face
as a sub-shape yields a non-null label. -/
structure FuseKernel where
  moved : FShape → ℕ → FShape
  copy : FShape → FShape
  selfFuse : FShape → Bool → Option ℚ → FShape
  fuseShape : FuseOpSt → FShape
  isDeleted : FuseOpSt → ℕ → Bool
  modified : FuseOpSt → ℕ → List ℕ
  generated : FuseOpSt → ℕ → List ℕ
  addSubNonNull : FShape → ℕ → Bool

/-- One recorded operation of the face pass: a sub-shape registration
(`shape_tool.AddSubShape`, recording whether the label was non-null) or a
face color attachment (`color_tool.SetColor`). -/
inductive FEv where
  | reg (face : ℕ) (nonNull : Bool)
  | col (face : ℕ) (c : ColorQ)
deriving Repr, DecidableEq

/-- Result of a successful `toFusedCAF` run: the top-level shape, the final
state of the fuse operation, the `zip(colors, shapes)` list the face pass
iterates over, and the face-pass event trace. -/
structure FusedOut where
  top : FShape
  op : FuseOpSt
  pairs : List (Option ColorQ × FShape)
  trace : List FEv
deriving Repr, DecidableEq

instance : Inhabited FusedOut :=
  ⟨⟨⟨"", []⟩, ⟨none, false, [], [], false⟩, [], []⟩⟩

/-- The flattened-iteration view of an assembly consumed by `toFusedCAF` and
`imprint`: the assembly name and the `(shape, name, location, color)` tuples
yielded by the iteration protocol. -/
structure AssemblyIter where
  name : String
  items : List (FShape × String × ℕ × Option ColorQ)
deriving Repr, DecidableEq

/-- Lines 579–591 of the source: register one face as a sub-shape of the
result and color it when a color is recorded, the label is non-null and the
face is not reported deleted (used for the original face and for each
modified face). -/
def subColorStep (K : FuseKernel) (op : FuseOpSt) (top : FShape) (color : Option ColorQ)
    (tr : List FEv) (f : ℕ) : List FEv :=
  let nn := K.addSubNonNull top f
  let tr1 := FEv.reg f nn :: tr
  match color with
  | some c => if nn && !K.isDeleted op f then FEv.col f c :: tr1 else tr1
  | none => tr1

/-- Lines 593–600 of the source: register one generated face and color it
when a color is recorded and the label is non-null — with no deletion
check. -/
def genColorStep (K : FuseKernel) (_op : FuseOpSt) (top : FShape) (color : Option ColorQ)
    (tr : List FEv) (f : ℕ) : List FEv :=
  let nn := K.addSubNonNull top f
  let tr1 := FEv.reg f nn :: tr
  match color with
  | some c => if nn then FEv.col f c :: tr1 else tr1
  | none => tr1

/-- The body of the per-face loop: the original face as-is, then every face
the fuse reports as modified from it, then every face the fuse reports as
generated from it. -/
def faceStep (K : FuseKernel) (op : FuseOpSt) (top : FShape) (color : Option ColorQ)
    (tr : List FEv) (f : ℕ) : List FEv :=
  let tr1 := subColorStep K op top color tr f
  let tr2 := (K.modified op f).foldl (subColorStep K op top color) tr1
  (K.generated op f).foldl (genColorStep K op top color) tr2

/-- The per-shape loop of the face pass. -/
def shapeStep (K : FuseKernel) (op : FuseOpSt) (top : FShape)
    (tr : List FEv) (p : Option ColorQ × FShape) : List FEv :=
  p.2.Faces.foldl (faceStep K op top p.1) tr

/-- Lines 577–600 of the source: the whole face-coloring pass over
`zip(colors, shapes)`. -/
def colorPass (K : FuseKernel) (op : FuseOpSt) (top : FShape)
    (pairs : List (Option ColorQ × FShape)) : List FEv :=
  pairs.foldl (shapeStep K op top) []

/-- `toFusedCAF(assy, glue, tol)`: flatten the assembly into moved shape
copies and colors; raise on zero shapes; wrap a single non-compound shape in
a degenerate compound without fusing; self-fuse a single compound shape and
wrap the result; for two or more shapes configure and build the multi-way
fuse with the first shape as the argument and the rest as tools; then run
the face-coloring pass over the original pre-fuse shapes. -/
def toFusedCAF (K : FuseKernel) (assy : AssemblyIter) (glue : Bool) (tol : Option ℚ) :
    Except String FusedOut :=
  let fuse0 : FuseOpSt := ⟨none, false, [], [], false⟩
  let shapes := assy.items.map (fun it => K.copy (K.moved it.1 it.2.2.1))
  let colors := assy.items.map (fun it => it.2.2.2)
  match shapes with
  | [] => .error ("Error: Assembly " ++ assy.name ++ " has no shapes.")
  | [sh] =>
    if sh.ShapeType ≠ "Compound" then
      let top := makeCompound [sh]
      let pairs := colors.zip [sh]
      .ok ⟨top, fuse0, pairs, colorPass K fuse0 top pairs⟩
    else
      let sh2 := K.selfFuse sh glue tol
      let top := makeCompound [sh2]
      let pairs := colors.zip [sh2]
      .ok ⟨top, fuse0, pairs, colorPass K fuse0 top pairs⟩
  | sh0 :: sh1 :: rest =>
    let op1 := if pyTruthy tol then { fuse0 with fuzzy := tol } else fuse0
    let op2 := if glue then { op1 with glue := true } else op1
    let op3 := { op2 with args := [sh0], tools := sh1 :: rest, built := true }
    let top := K.fuseShape op3
    let pairs := colors.zip (sh0 :: sh1 :: rest)
    .ok ⟨top, op3, pairs, colorPass K op3 top pairs⟩

/-- A concrete kernel model used for witnesses. -/
def demoFuseK : FuseKernel where
  moved := fun s _ => s
  copy := fun s => s
  selfFuse := fun s _ _ => s
  fuseShape := fun op2 => makeCompound (op2.args ++ op2.tools)
  isDeleted := fun _ f => f == 99
  modified := fun _ f => if f == 0 then [10] else []
  generated := fun _ f => if f == 1 then [11] else []
  addSubNonNull := fun _ f => f != 98

/-- A concrete color with whole-number channels, used in witnesses. -/
def cRed : ColorQ := ⟨1, 0, 0, 1⟩

/-- A single non-compound demo shape. -/
def shNC : FShape := ⟨"Solid", [0, 1]⟩

/-- A single compound demo shape. -/
def shCP : FShape := ⟨"Compound", [2]⟩

/-- Declarative description of the face-pass events contributed by one
original pre-fuse face `f` of a shape with recorded color `color`: the face
itself is registered, and colored exactly when a color is recorded, its label
is non-null and the fuse does not report it deleted; every face reported as
modified from `f` is registered, and colored under the same non-null and
not-deleted guard; every face reported as generated from `f` is registered,
and colored with only the non-null guard. -/
def faceEvOf (K : FuseKernel) (op : FuseOpSt) (top : FShape) (color : Option ColorQ)
    (f : ℕ) (x : FEv) : Prop :=
  (x = FEv.reg f (K.addSubNonNull top f)
    ∨ ∃ c, color = some c ∧ K.addSubNonNull top f = true
        ∧ K.isDeleted op f = false ∧ x = FEv.col f c)
  ∨ (∃ m ∈ K.modified op f, x = FEv.reg m (K.addSubNonNull top m)
      ∨ ∃ c, color = some c ∧ K.addSubNonNull top m = true
          ∧ K.isDeleted op m = false ∧ x = FEv.col m c)
  ∨ (∃ g ∈ K.generated op f, x = FEv.reg g (K.addSubNonNull top g)
      ∨ ∃ c, color = some c ∧ K.addSubNonNull top g = true ∧ x = FEv.col g c)

/-- A two-shape demo assembly for the face-pass characterization. -/
def multiAssy : AssemblyIter :=
  ⟨"multi", [(⟨"Solid", [0, 1]⟩, "a", 0, some cRed), (⟨"Solid", [2]⟩, "b", 0, none)]⟩

/-- The successful result of `toFusedCAF` on `multiAssy` under the demo
kernel. -/
def demoFusedOut : FusedOut :=
  ((toFusedCAF demoFuseK multiAssy false none).toOption).getD default

/-! ## The topological connector `imprint`

`imprint` consumes the assembly iteration protocol, collects the located
solids into an identity-keyed name map (a Python dict keyed by the solid
wrapper, whose hash/equality follow the kernel shape identity per the design
document), submits them to `BOPAlgo_MakeConnected`, and derives the origin
map.  Solids are opaque identifiers; the kernel connect operation is an
explicit parameter.  Python dict semantics: insertion order is preserved,
re-assignment overwrites in place, a missing key raises `KeyError`. -/

/-- The kernel capabilities consumed by `imprint`: the solids of a moved
shape, the solids of the connect result for given arguments, and the
per-result-solid origin query. -/
structure ConnKernel where
  movedSolids : FShape → ℕ → List ℕ
  resSolids : List ℕ → List ℕ
  getOrigins : List ℕ → ℕ → List ℕ

/-- Python dict assignment `d[k] = v`: overwrite in place when the key
exists, else append (insertion order preserved). -/
def dictInsert (d : List (ℕ × String)) (k : ℕ) (v : String) : List (ℕ × String) :=
  if (d.map Prod.fst).contains k then
    d.map (fun e => if e.1 = k then (k, v) else e)
  else d ++ [(k, v)]

/-- Python dict read `d[k]`: the value, or a `KeyError` for a missing key. -/
def dget (d : List (ℕ × String)) (k : ℕ) : Except String String :=
  match alookup d k with
  | some v => .ok v
  | none => .error ("KeyError: " ++ toString k)

/-- Lines 610–615 of the source: build `id_map`, mapping every located solid
of every iterated object to the name it came from. -/
def imprintIdMap (K : ConnKernel) (assy : AssemblyIter) : List (ℕ × String) :=
  assy.items.foldl
    (fun d it => (K.movedSolids it.1 it.2.2.1).foldl (fun d2 s => dictInsert d2 s it.2.1) d)
    []

/-- Lines 622–623 of the source: the arguments handed to the connect builder
(`for obj in id_map`, i.e. the keys in insertion order). -/
def imprintArgs (K : ConnKernel) (assy : AssemblyIter) : List ℕ :=
  (imprintIdMap K assy).map Prod.fst

/-- Lines 631–634 of the source, one result solid: the tuple of names of the
origin solids the kernel reports, or — when the origin query yields nothing —
the one-element tuple holding the solid's own pre-existing name.  A missing
name raises `KeyError`. -/
def originEntry (K : ConnKernel) (args : List ℕ) (id_map : List (ℕ × String)) (s : ℕ) :
    Except String (ℕ × List String) := do
  let ids ← (K.getOrigins args s).mapM (fun el => dget id_map el)
  match ids with
  | [] => do
    let n ← dget id_map s
    pure (s, [n])
  | _ => pure (s, ids)

/-- `imprint(assy)`: build the identity-keyed name map, connect all solids
topologically, and map every solid of the result to its origin names.  The
result stands for `(res, origins)`; the connected shape is represented by
its solid list. -/
def imprint (K : ConnKernel) (assy : AssemblyIter) :
    Except String (List ℕ × List (ℕ × List String)) := do
  let id_map := imprintIdMap K assy
  let args := imprintArgs K assy
  let res := K.resSolids args
  let origins ← res.mapM (originEntry K args id_map)
  pure (res, origins)

/-- A concrete connect-kernel model used for witnesses: solids 1 and 2 merge
into solid 5 (origins 1 and 2, in that order) while solid 1 also survives
untouched (empty origin query). -/
def demoConnK : ConnKernel where
  movedSolids := fun s _ => s.faces
  resSolids := fun args => if args = [1, 2] then [1, 5] else []
  getOrigins := fun _ s => if s = 5 then [1, 2] else []

/-- The flattened demo assembly fed to `imprint` in witnesses. -/
def connAssy : AssemblyIter :=
  ⟨"conn", [(⟨"Solid", [1]⟩, "a", 0, none), (⟨"Solid", [2]⟩, "b", 0, none)]⟩

/-- Concrete assembly with two nodes carrying the same (color, shape) pair,
used to exercise the deduplication cache. -/
def dedupDemoAssy : Assembly :=
  .node "root" 0 none [] none none
    [ .node "a" 1 (some 30) [30] (some 5) none [],
      .node "b" 2 (some 30) [30] (some 5) none [] ]

/-- Concrete assembly with a colored root and an inheriting child, used to
exercise the color placement policy. -/
def colorDemoAssy : Assembly :=
  .node "top" 0 (some 20) [20] (some 3) none
    [ .node "kid" 1 (some 21) [21] none none [] ]

/-- C5, counterexample: constructing `Color` from the RGB triple
`(0.2, 0.4, 0.6)` with no alpha keyword does NOT yield the channel tuple
`(0.2, 0.4, 0.6, 0.0)` claimed by the specification: the omitted alpha is `1`
(fully opaque), because the constructor initializes the wrapped color with
alpha `1` and the truthiness guard on `kwargs.get("a")` never fires. -/
theorem colorInit3_no_alpha_cex :
    (colorInit3 (2/10) (4/10) (6/10) none).toTuple ≠ ((2/10 : ℚ), 4/10, 6/10, 0) := by
  have h : (colorInit3 (2/10) (4/10) (6/10) none).toTuple = ((2/10 : ℚ), 4/10, 6/10, 1) := rfl
  rw [h]
  norm_num [Prod.ext_iff]

/-- C5, amended: for every `r`, `g`, `b`, constructing `Color` with exactly the
three positional arguments and no alpha keyword yields the channel tuple
`(r, g, b, 1)` — the omitted alpha defaults to fully opaque, not fully
transparent — and the four-argument form uses the explicitly supplied alpha. -/
theorem colorInit3_no_alpha_defaults_opaque (r g b : ℚ) :
    (colorInit3 r g b none).toTuple = (r, g, b, 1)
    ∧ ∀ a : ℚ, (colorInit4 r g b a).toTuple = (r, g, b, a) :=
  ⟨rfl, fun _ => rfl⟩

/-- C10: for every `r`, `g`, `b`, constructing `Color` with three positional
arguments and the explicitly passed falsy keyword alpha `a=0` yields alpha `1`,
not the requested `0`: the keyword alpha is applied only when truthy, so an
explicit request for full transparency via the 3-argument form is ignored. -/
theorem colorInit3_falsy_alpha_ignored (r g b : ℚ) :
    (colorInit3 r g b (some 0)).toTuple = (r, g, b, 1) ∧ (1 : ℚ) ≠ 0 :=
  ⟨rfl, by norm_num⟩

/-! ## Claim C4 -/

/-- C4 (code bug): on an assembly whose two parts share one material, a single
`toCAF` call creates exactly one logical material record but TWO visual
material records, and the `visualization_materials` cache is still empty when
the call returns — the source checks that cache but never stores into it, so
the claimed "exactly one visual-material record referenced by all k parts"
fails while each of the two parts does reference the one logical record. -/
theorem toCAF_visMaterial_duplicated :
    countAddMatFor (toCAF ⟨false, false⟩ sharedMaterialAssy).2.trace 7 = 1
    ∧ countAddVisMatFor (toCAF ⟨false, false⟩ sharedMaterialAssy).2.trace 7 = 2
    ∧ (toCAF ⟨false, false⟩ sharedMaterialAssy).2.visualization_materials = []
    ∧ countSetMat (toCAF ⟨false, false⟩ sharedMaterialAssy).2.trace = 2
    ∧ countSetVisMat (toCAF ⟨false, false⟩ sharedMaterialAssy).2.trace = 2 :=
  ⟨rfl, rfl, rfl, rfl, rfl⟩

/-! ## Basic lemmas for the `toCAF` invariant -/

/-- Structural induction over the assembly tree with a member-wise hypothesis
for the child list. -/
theorem Assembly.inductOn (P : Assembly → Prop)
    (h : ∀ n l o ss c m ch, (∀ a ∈ ch, P a) → P (.node n l o ss c m ch)) :
    ∀ a, P a
  | .node n l o ss c m ch => h n l o ss c m ch (fun a _ha => Assembly.inductOn P h a)
termination_by a => sizeOf a
decreasing_by
  have := List.sizeOf_lt_of_mem _ha
  simp only [Assembly.node.sizeOf_spec]
  omega

theorem alookup_eq_none_iff {α β : Type} [DecidableEq α] (l : List (α × β)) (k : α) :
    alookup l k = none ↔ k ∉ l.map Prod.fst := by
  induction l with
  | nil => simp [alookup]
  | cons e es ih =>
    simp only [alookup, List.map_cons, List.mem_cons]
    by_cases h : e.1 = k
    · simp [h]
    · rw [if_neg h, ih]
      constructor
      · intro hk hmem
        rcases hmem with h1 | h2
        · exact h h1.symm
        · exact hk h2
      · intro hk h2
        exact hk (Or.inr h2)

theorem alookup_mem {α β : Type} [DecidableEq α] (l : List (α × β)) (k : α) (v : β)
    (h : alookup l k = some v) : (k, v) ∈ l := by
  induction l with
  | nil => simp [alookup] at h
  | cons e es ih =>
    by_cases he : e.1 = k
    · simp only [alookup, he, if_true, Option.some.injEq] at h
      subst h
      have : e = (k, e.2) := by
        cases e
        simp_all
      rw [this]
      exact List.mem_cons_self _ _
    · simp only [alookup, he, if_false] at h
      exact List.mem_cons_of_mem _ (ih h)

theorem Inv.initial (cfg : Cfg) : Inv cfg DocSt.init := by
  constructor <;> simp [DocSt.init, countSetShape, colorLabs, geomLabs, partComponentLabs]

theorem colorLabs_lt (tr : List Ev) (n : ℕ) (h : ∀ e ∈ tr, EvBound n e) :
    ∀ l ∈ colorLabs tr, l < n := by
  intro l hl
  simp only [colorLabs, List.mem_filterMap] at hl
  obtain ⟨e, he, hel⟩ := hl
  have hb := h e he
  unfold EvBound at hb
  cases e <;> simp_all [evLabels]

theorem geomLabs_lt (tr : List Ev) (n : ℕ) (h : ∀ e ∈ tr, EvBound n e) :
    ∀ l ∈ geomLabs tr, l < n := by
  intro l hl
  simp only [geomLabs, List.mem_filterMap] at hl
  obtain ⟨e, he, hel⟩ := hl
  have hb := h e he
  unfold EvBound at hb
  cases e <;> simp_all [evLabels]

theorem getCompound_fields (cfg : Cfg) (shapes : List ℕ) (key1 : ℕ) (t : DocSt) :
    (getCompound cfg shapes key1 t).2.fresh = t.fresh
    ∧ (getCompound cfg shapes key1 t).2.trace = t.trace
    ∧ (getCompound cfg shapes key1 t).2.unique_objs = t.unique_objs
    ∧ (getCompound cfg shapes key1 t).2.materials = t.materials
    ∧ (getCompound cfg shapes key1 t).2.visualization_materials = t.visualization_materials := by
  cases h : alookup t.compounds key1 <;> simp [getCompound, h]

theorem handleMaterials_spec (material : Option ℕ) (lab : ℕ) (s : DocSt)
    (hlab : lab < s.fresh)
    (htb : ∀ e ∈ s.trace, EvBound s.fresh e)
    (hmb : ∀ e ∈ s.materials, e.2 < s.fresh)
    (hvis : s.visualization_materials = []) :
    (∀ e ∈ (handleMaterials material lab s).trace, EvBound (handleMaterials material lab s).fresh e)
    ∧ (∀ e ∈ (handleMaterials material lab s).materials, e.2 < (handleMaterials material lab s).fresh)
    ∧ (handleMaterials material lab s).visualization_materials = []
    ∧ s.fresh ≤ (handleMaterials material lab s).fresh
    ∧ (handleMaterials material lab s).unique_objs = s.unique_objs
    ∧ countSetShape (handleMaterials material lab s).trace = countSetShape s.trace
    ∧ colorLabs (handleMaterials material lab s).trace = colorLabs s.trace
    ∧ geomLabs (handleMaterials material lab s).trace = geomLabs s.trace
    ∧ partComponentLabs (handleMaterials material lab s).trace = partComponentLabs s.trace := by
  cases material with
  | none =>
    exact ⟨htb, hmb, hvis, le_refl _, rfl, rfl, rfl, rfl, rfl⟩
  | some m =>
    cases hm : alookup s.materials m with
    | some ml =>
      have hml : ml < s.fresh := hmb _ (alookup_mem _ _ _ hm)
      simp only [handleMaterials, hm, hvis, alookup, DocSt.addVisMaterialRec, DocSt.emit]
      refine ⟨?_, ?_, by simp, ?_, by trivial, ?_, ?_, ?_, ?_⟩
      · intro e he
        simp only [List.mem_cons] at he
        unfold EvBound
        rcases he with rfl | rfl | rfl | he
        · intro l hl
          simp only [evLabels, List.mem_cons, List.not_mem_nil, or_false] at hl
          omega
        · intro l hl
          simp only [evLabels, List.mem_cons, List.not_mem_nil, or_false] at hl
          omega
        · intro l hl
          simp only [evLabels, List.mem_cons, List.not_mem_nil, or_false] at hl
          omega
        · intro l hl
          exact Nat.lt_succ_of_lt (htb e he l hl)
      · intro e he
        exact Nat.lt_succ_of_lt (hmb e he)
      · omega
      · simp [countSetShape]
      · simp [colorLabs]
      · simp [geomLabs]
      · simp [partComponentLabs]
    | none =>
      simp only [handleMaterials, hm, hvis, alookup, DocSt.addMaterialRec,
        DocSt.addVisMaterialRec, DocSt.emit]
      refine ⟨?_, ?_, by simp, ?_, by trivial, ?_, ?_, ?_, ?_⟩
      · intro e he
        simp only [List.mem_cons] at he
        unfold EvBound
        rcases he with rfl | rfl | rfl | rfl | he
        · intro l hl
          simp only [evLabels, List.mem_cons, List.not_mem_nil, or_false] at hl
          omega
        · intro l hl
          simp only [evLabels, List.mem_cons, List.not_mem_nil, or_false] at hl
          omega
        · intro l hl
          simp only [evLabels, List.mem_cons, List.not_mem_nil, or_false] at hl
          omega
        · intro l hl
          simp only [evLabels, List.mem_cons, List.not_mem_nil, or_false] at hl
          omega
        · intro l hl
          have := htb e he l hl
          omega
      · intro e he
        simp only [List.mem_cons] at he
        rcases he with rfl | he
        · show s.fresh < s.fresh + 1 + 1
          omega
        · have := hmb e he
          omega
      · omega
      · simp [countSetShape]
      · simp [colorLabs]
      · simp [geomLabs]
      · simp [partComponentLabs]

/-- Invariant facts after registering a brand-new part record with no color
attachment (used for the cache-miss branch when colors are not placed on
geometry, or when the effective color is absent). -/
theorem createdPartNoColor_inv (cfg : Cfg) (s : DocSt) (material : Option ℕ)
    (key0 : Option ℕ × ℕ) (cpd : Cpd) (nm2 : String) (CMP : List (ℕ × Cpd))
    (hInv : Inv cfg s) (hkey : key0 ∉ s.unique_objs.map Prod.fst)
    (hnc : cfg.coloredSTEP = false ∨ key0.1 = none) :
    Inv cfg (handleMaterials material s.fresh
      (DocSt.mk (s.fresh + 1) ((key0, s.fresh) :: s.unique_objs) CMP s.materials
        s.visualization_materials
        (Ev.setName s.fresh nm2 :: Ev.setShape s.fresh cpd :: Ev.newShape s.fresh :: s.trace)))
    ∧ s.fresh ≤ (handleMaterials material s.fresh
      (DocSt.mk (s.fresh + 1) ((key0, s.fresh) :: s.unique_objs) CMP s.materials
        s.visualization_materials
        (Ev.setName s.fresh nm2 :: Ev.setShape s.fresh cpd :: Ev.newShape s.fresh :: s.trace))).fresh
    ∧ s.fresh < (handleMaterials material s.fresh
      (DocSt.mk (s.fresh + 1) ((key0, s.fresh) :: s.unique_objs) CMP s.materials
        s.visualization_materials
        (Ev.setName s.fresh nm2 :: Ev.setShape s.fresh cpd :: Ev.newShape s.fresh :: s.trace))).fresh
    ∧ s.fresh ∈ ((handleMaterials material s.fresh
      (DocSt.mk (s.fresh + 1) ((key0, s.fresh) :: s.unique_objs) CMP s.materials
        s.visualization_materials
        (Ev.setName s.fresh nm2 :: Ev.setShape s.fresh cpd :: Ev.newShape s.fresh :: s.trace))).unique_objs.map Prod.snd)
    ∧ (∀ l ∈ geomLabs (handleMaterials material s.fresh
      (DocSt.mk (s.fresh + 1) ((key0, s.fresh) :: s.unique_objs) CMP s.materials
        s.visualization_materials
        (Ev.setName s.fresh nm2 :: Ev.setShape s.fresh cpd :: Ev.newShape s.fresh :: s.trace))).trace,
        l ∈ geomLabs s.trace ∨ s.fresh ≤ l)
    ∧ (cfg.coloredSTEP = false → colorLabs (handleMaterials material s.fresh
      (DocSt.mk (s.fresh + 1) ((key0, s.fresh) :: s.unique_objs) CMP s.materials
        s.visualization_materials
        (Ev.setName s.fresh nm2 :: Ev.setShape s.fresh cpd :: Ev.newShape s.fresh :: s.trace))).trace = colorLabs s.trace)
    ∧ partComponentLabs (handleMaterials material s.fresh
      (DocSt.mk (s.fresh + 1) ((key0, s.fresh) :: s.unique_objs) CMP s.materials
        s.visualization_materials
        (Ev.setName s.fresh nm2 :: Ev.setShape s.fresh cpd :: Ev.newShape s.fresh :: s.trace))).trace = partComponentLabs s.trace := by
  have htb3 : ∀ e ∈ (Ev.setName s.fresh nm2 :: Ev.setShape s.fresh cpd ::
      Ev.newShape s.fresh :: s.trace), EvBound (s.fresh + 1) e := by
    intro e he
    rcases List.mem_cons.mp he with rfl | he
    · unfold EvBound evLabels
      intro l hl
      simp at hl
      omega
    rcases List.mem_cons.mp he with rfl | he
    · unfold EvBound evLabels
      intro l hl
      simp at hl
      omega
    rcases List.mem_cons.mp he with rfl | he
    · unfold EvBound evLabels
      intro l hl
      simp at hl
      omega
    · intro l hl
      exact Nat.lt_succ_of_lt (hInv.traceBound e he l hl)
  have hmb3 : ∀ e ∈ s.materials, e.2 < s.fresh + 1 :=
    fun e he => Nat.lt_succ_of_lt (hInv.matBound e he)
  obtain ⟨h1, h2, h3, h4, h5, h6, h7, h8, h9⟩ :=
    handleMaterials_spec material s.fresh
      (DocSt.mk (s.fresh + 1) ((key0, s.fresh) :: s.unique_objs) CMP s.materials
        s.visualization_materials
        (Ev.setName s.fresh nm2 :: Ev.setShape s.fresh cpd :: Ev.newShape s.fresh :: s.trace))
      (Nat.lt_succ_self _) htb3 hmb3 hInv.visEmpty
  have h4' : s.fresh + 1 ≤ (handleMaterials material s.fresh
      (DocSt.mk (s.fresh + 1) ((key0, s.fresh) :: s.unique_objs) CMP s.materials
        s.visualization_materials
        (Ev.setName s.fresh nm2 :: Ev.setShape s.fresh cpd :: Ev.newShape s.fresh :: s.trace))).fresh := h4
  have hcl3 : colorLabs (Ev.setName s.fresh nm2 :: Ev.setShape s.fresh cpd ::
      Ev.newShape s.fresh :: s.trace) = colorLabs s.trace := by
    simp [colorLabs]
  have hgl3 : geomLabs (Ev.setName s.fresh nm2 :: Ev.setShape s.fresh cpd ::
      Ev.newShape s.fresh :: s.trace) = s.fresh :: geomLabs s.trace := by
    simp [geomLabs]
  have hpl3 : partComponentLabs (Ev.setName s.fresh nm2 :: Ev.setShape s.fresh cpd ::
      Ev.newShape s.fresh :: s.trace) = partComponentLabs s.trace := by
    simp [partComponentLabs]
  refine ⟨⟨?_, ?_, h1, ?_, h2, h3, ?_, ?_, ?_, ?_, ?_⟩, by omega, by omega, ?_, ?_, ?_, ?_⟩
  · rw [h5]
    exact List.nodup_cons.mpr ⟨hkey, hInv.nodupKeys⟩
  · rw [h6, h5]
    have hsc := hInv.shapeCount
    simp only [countSetShape] at hsc ⊢
    simp [hsc]
  · intro e he
    rw [h5] at he
    rcases List.mem_cons.mp he with rfl | he
    · show s.fresh < _
      omega
    · have := hInv.uoBound e he
      omega
  · intro l hl
    rw [h9, hpl3] at hl
    rw [h5]
    exact List.mem_cons_of_mem _ (hInv.partComp l hl)
  · intro hb l hl
    rw [h7, hcl3] at hl
    rw [h8, hgl3]
    exact List.mem_cons_of_mem _ (hInv.colorGeom hb l hl)
  · intro hb
    rw [h7, hcl3]
    exact hInv.colorNodup hb
  · intro hb
    rw [h7, hcl3, h5]
    rcases hnc with hnc | hnc
    · exact absurd hb (by simp [hnc])
    · have := hInv.colorCountT hb
      simp [hnc, this]
  · intro hb l hl
    rw [h7, hcl3] at hl
    rw [h8, hgl3]
    intro hmem
    rcases List.mem_cons.mp hmem with rfl | hmem
    · have := colorLabs_lt s.trace s.fresh hInv.traceBound _ hl
      omega
    · exact hInv.colorStruct hb l hl hmem
  · rw [h5]
    exact List.mem_cons_self _ _
  · intro l hl
    rw [h8, hgl3] at hl
    rcases List.mem_cons.mp hl with rfl | hl
    · exact Or.inr (le_refl _)
    · exact Or.inl hl
  · intro _
    rw [h7, hcl3]
  · rw [h9, hpl3]


/-- Invariant facts after registering a brand-new part record together with a
color attachment on the part record (used for the cache-miss branch when
exporting to STEP with a present effective color). -/
theorem createdPartColor_inv (cfg : Cfg) (s : DocSt) (material : Option ℕ)
    (key0 : Option ℕ × ℕ) (c : ℕ) (cpd : Cpd) (nm2 : String) (CMP : List (ℕ × Cpd))
    (hInv : Inv cfg s) (hkey : key0 ∉ s.unique_objs.map Prod.fst)
    (hb : cfg.coloredSTEP = true) (hkc : key0.1 = some c) :
    Inv cfg (handleMaterials material s.fresh
      (DocSt.mk (s.fresh + 1) ((key0, s.fresh) :: s.unique_objs) CMP s.materials
        s.visualization_materials
        (Ev.setColor s.fresh c :: Ev.setName s.fresh nm2 :: Ev.setShape s.fresh cpd ::
          Ev.newShape s.fresh :: s.trace)))
    ∧ s.fresh ≤ (handleMaterials material s.fresh
      (DocSt.mk (s.fresh + 1) ((key0, s.fresh) :: s.unique_objs) CMP s.materials
        s.visualization_materials
        (Ev.setColor s.fresh c :: Ev.setName s.fresh nm2 :: Ev.setShape s.fresh cpd ::
          Ev.newShape s.fresh :: s.trace))).fresh
    ∧ s.fresh < (handleMaterials material s.fresh
      (DocSt.mk (s.fresh + 1) ((key0, s.fresh) :: s.unique_objs) CMP s.materials
        s.visualization_materials
        (Ev.setColor s.fresh c :: Ev.setName s.fresh nm2 :: Ev.setShape s.fresh cpd ::
          Ev.newShape s.fresh :: s.trace))).fresh
    ∧ s.fresh ∈ ((handleMaterials material s.fresh
      (DocSt.mk (s.fresh + 1) ((key0, s.fresh) :: s.unique_objs) CMP s.materials
        s.visualization_materials
        (Ev.setColor s.fresh c :: Ev.setName s.fresh nm2 :: Ev.setShape s.fresh cpd ::
          Ev.newShape s.fresh :: s.trace))).unique_objs.map Prod.snd)
    ∧ (∀ l ∈ geomLabs (handleMaterials material s.fresh
      (DocSt.mk (s.fresh + 1) ((key0, s.fresh) :: s.unique_objs) CMP s.materials
        s.visualization_materials
        (Ev.setColor s.fresh c :: Ev.setName s.fresh nm2 :: Ev.setShape s.fresh cpd ::
          Ev.newShape s.fresh :: s.trace))).trace,
        l ∈ geomLabs s.trace ∨ s.fresh ≤ l)
    ∧ (cfg.coloredSTEP = false → colorLabs (handleMaterials material s.fresh
      (DocSt.mk (s.fresh + 1) ((key0, s.fresh) :: s.unique_objs) CMP s.materials
        s.visualization_materials
        (Ev.setColor s.fresh c :: Ev.setName s.fresh nm2 :: Ev.setShape s.fresh cpd ::
          Ev.newShape s.fresh :: s.trace))).trace = colorLabs s.trace)
    ∧ partComponentLabs (handleMaterials material s.fresh
      (DocSt.mk (s.fresh + 1) ((key0, s.fresh) :: s.unique_objs) CMP s.materials
        s.visualization_materials
        (Ev.setColor s.fresh c :: Ev.setName s.fresh nm2 :: Ev.setShape s.fresh cpd ::
          Ev.newShape s.fresh :: s.trace))).trace = partComponentLabs s.trace := by
  have htb3 : ∀ e ∈ (Ev.setColor s.fresh c :: Ev.setName s.fresh nm2 ::
      Ev.setShape s.fresh cpd :: Ev.newShape s.fresh :: s.trace), EvBound (s.fresh + 1) e := by
    intro e he
    rcases List.mem_cons.mp he with rfl | he
    · unfold EvBound evLabels
      intro l hl
      simp at hl
      omega
    rcases List.mem_cons.mp he with rfl | he
    · unfold EvBound evLabels
      intro l hl
      simp at hl
      omega
    rcases List.mem_cons.mp he with rfl | he
    · unfold EvBound evLabels
      intro l hl
      simp at hl
      omega
    rcases List.mem_cons.mp he with rfl | he
    · unfold EvBound evLabels
      intro l hl
      simp at hl
      omega
    · intro l hl
      exact Nat.lt_succ_of_lt (hInv.traceBound e he l hl)
  have hmb3 : ∀ e ∈ s.materials, e.2 < s.fresh + 1 :=
    fun e he => Nat.lt_succ_of_lt (hInv.matBound e he)
  obtain ⟨h1, h2, h3, h4, h5, h6, h7, h8, h9⟩ :=
    handleMaterials_spec material s.fresh
      (DocSt.mk (s.fresh + 1) ((key0, s.fresh) :: s.unique_objs) CMP s.materials
        s.visualization_materials
        (Ev.setColor s.fresh c :: Ev.setName s.fresh nm2 :: Ev.setShape s.fresh cpd ::
          Ev.newShape s.fresh :: s.trace))
      (Nat.lt_succ_self _) htb3 hmb3 hInv.visEmpty
  have h4' : s.fresh + 1 ≤ (handleMaterials material s.fresh
      (DocSt.mk (s.fresh + 1) ((key0, s.fresh) :: s.unique_objs) CMP s.materials
        s.visualization_materials
        (Ev.setColor s.fresh c :: Ev.setName s.fresh nm2 :: Ev.setShape s.fresh cpd ::
          Ev.newShape s.fresh :: s.trace))).fresh := h4
  have hcl3 : colorLabs (Ev.setColor s.fresh c :: Ev.setName s.fresh nm2 ::
      Ev.setShape s.fresh cpd :: Ev.newShape s.fresh :: s.trace)
      = s.fresh :: colorLabs s.trace := by
    simp [colorLabs]
  have hgl3 : geomLabs (Ev.setColor s.fresh c :: Ev.setName s.fresh nm2 ::
      Ev.setShape s.fresh cpd :: Ev.newShape s.fresh :: s.trace)
      = s.fresh :: geomLabs s.trace := by
    simp [geomLabs]
  have hpl3 : partComponentLabs (Ev.setColor s.fresh c :: Ev.setName s.fresh nm2 ::
      Ev.setShape s.fresh cpd :: Ev.newShape s.fresh :: s.trace)
      = partComponentLabs s.trace := by
    simp [partComponentLabs]
  refine ⟨⟨?_, ?_, h1, ?_, h2, h3, ?_, ?_, ?_, ?_, ?_⟩, by omega, by omega, ?_, ?_, ?_, ?_⟩
  · rw [h5]
    exact List.nodup_cons.mpr ⟨hkey, hInv.nodupKeys⟩
  · rw [h6, h5]
    have hsc := hInv.shapeCount
    simp only [countSetShape] at hsc ⊢
    simp [hsc]
  · intro e he
    rw [h5] at he
    rcases List.mem_cons.mp he with rfl | he
    · show s.fresh < _
      omega
    · have := hInv.uoBound e he
      omega
  · intro l hl
    rw [h9, hpl3] at hl
    rw [h5]
    exact List.mem_cons_of_mem _ (hInv.partComp l hl)
  · intro hb2 l hl
    rw [h7, hcl3] at hl
    rw [h8, hgl3]
    rcases List.mem_cons.mp hl with rfl | hl
    · exact List.mem_cons_self _ _
    · exact List.mem_cons_of_mem _ (hInv.colorGeom hb2 l hl)
  · intro hb2
    rw [h7, hcl3]
    refine List.nodup_cons.mpr ⟨?_, hInv.colorNodup hb2⟩
    intro hmem
    have := colorLabs_lt s.trace s.fresh hInv.traceBound _ hmem
    omega
  · intro hb2
    rw [h7, hcl3, h5]
    have := hInv.colorCountT hb2
    simp [hkc, this]
  · intro hb2
    exact Bool.noConfusion (hb.symm.trans hb2)
  · rw [h5]
    exact List.mem_cons_self _ _
  · intro l hl
    rw [h8, hgl3] at hl
    rcases List.mem_cons.mp hl with rfl | hl
    · exact Or.inr (le_refl _)
    · exact Or.inl hl
  · intro hb2
    exact Bool.noConfusion (hb.symm.trans hb2)
  · rw [h9, hpl3]


/-- Behaviour of `registerPart` (`toCAF` lines 343–386): it preserves the
document invariant, moves the fresh counter monotonically, returns the label
of a registered unique part, creates geometry records only at fresh labels,
attaches no color when colors travel with structure, and links no component. -/
theorem registerPart_spec (cfg : Cfg) (nm2 : String) (shapes : List ℕ)
    (material : Option ℕ) (cc : Option ℕ) (o : ℕ) (s : DocSt) (hInv : Inv cfg s) :
    Inv cfg (registerPart cfg nm2 shapes material cc o s).2
    ∧ s.fresh ≤ (registerPart cfg nm2 shapes material cc o s).2.fresh
    ∧ (registerPart cfg nm2 shapes material cc o s).1
        < (registerPart cfg nm2 shapes material cc o s).2.fresh
    ∧ (registerPart cfg nm2 shapes material cc o s).1
        ∈ (registerPart cfg nm2 shapes material cc o s).2.unique_objs.map Prod.snd
    ∧ (∀ l ∈ geomLabs (registerPart cfg nm2 shapes material cc o s).2.trace,
        l ∈ geomLabs s.trace ∨ s.fresh ≤ l)
    ∧ (cfg.coloredSTEP = false →
        colorLabs (registerPart cfg nm2 shapes material cc o s).2.trace = colorLabs s.trace)
    ∧ partComponentLabs (registerPart cfg nm2 shapes material cc o s).2.trace
        = partComponentLabs s.trace := by
  cases h0 : alookup s.unique_objs (cc, o) with
  | some lab =>
    have hmem := alookup_mem _ _ _ h0
    have hlt := hInv.uoBound _ hmem
    simp only [registerPart, h0]
    exact ⟨hInv, le_refl _, hlt, List.mem_map_of_mem Prod.snd hmem,
      fun l hl => Or.inl hl, fun _ => by simp, by simp⟩
  | none =>
    have hkey : (cc, o) ∉ s.unique_objs.map Prod.fst := (alookup_eq_none_iff _ _).mp h0
    have gf : (getCompound cfg shapes o
        ⟨s.fresh + 1, s.unique_objs, s.compounds, s.materials, s.visualization_materials,
          Ev.newShape s.fresh :: s.trace⟩).2.fresh = s.fresh + 1 :=
      (getCompound_fields cfg shapes o _).1
    have gt : (getCompound cfg shapes o
        ⟨s.fresh + 1, s.unique_objs, s.compounds, s.materials, s.visualization_materials,
          Ev.newShape s.fresh :: s.trace⟩).2.trace = Ev.newShape s.fresh :: s.trace :=
      (getCompound_fields cfg shapes o _).2.1
    have gu : (getCompound cfg shapes o
        ⟨s.fresh + 1, s.unique_objs, s.compounds, s.materials, s.visualization_materials,
          Ev.newShape s.fresh :: s.trace⟩).2.unique_objs = s.unique_objs :=
      (getCompound_fields cfg shapes o _).2.2.1
    have gm : (getCompound cfg shapes o
        ⟨s.fresh + 1, s.unique_objs, s.compounds, s.materials, s.visualization_materials,
          Ev.newShape s.fresh :: s.trace⟩).2.materials = s.materials :=
      (getCompound_fields cfg shapes o _).2.2.2.1
    have gv : (getCompound cfg shapes o
        ⟨s.fresh + 1, s.unique_objs, s.compounds, s.materials, s.visualization_materials,
          Ev.newShape s.fresh :: s.trace⟩).2.visualization_materials
        = s.visualization_materials :=
      (getCompound_fields cfg shapes o _).2.2.2.2
    cases hb : cfg.coloredSTEP with
    | false =>
      cases cc with
      | none =>
        simp only [registerPart, h0, DocSt.newShape, DocSt.emit, hb, gf, gt, gu, gm, gv]
        obtain ⟨i1, i2, i3, i4, i5, i6, i7⟩ := createdPartNoColor_inv cfg s material (none, o)
          (getCompound cfg shapes o
            ⟨s.fresh + 1, s.unique_objs, s.compounds, s.materials,
              s.visualization_materials, Ev.newShape s.fresh :: s.trace⟩).1
          (nm2 ++ "_part")
          (getCompound cfg shapes o
            ⟨s.fresh + 1, s.unique_objs, s.compounds, s.materials,
              s.visualization_materials, Ev.newShape s.fresh :: s.trace⟩).2.compounds
          hInv hkey (Or.inl hb)
        exact ⟨i1, i2, i3, i4, i5, fun _ => i6 hb, i7⟩
      | some cv =>
        simp only [registerPart, h0, DocSt.newShape, DocSt.emit, hb, gf, gt, gu, gm, gv]
        obtain ⟨i1, i2, i3, i4, i5, i6, i7⟩ := createdPartNoColor_inv cfg s material (some cv, o)
          (getCompound cfg shapes o
            ⟨s.fresh + 1, s.unique_objs, s.compounds, s.materials,
              s.visualization_materials, Ev.newShape s.fresh :: s.trace⟩).1
          (nm2 ++ "_part")
          (getCompound cfg shapes o
            ⟨s.fresh + 1, s.unique_objs, s.compounds, s.materials,
              s.visualization_materials, Ev.newShape s.fresh :: s.trace⟩).2.compounds
          hInv hkey (Or.inl hb)
        exact ⟨i1, i2, i3, i4, i5, fun _ => i6 hb, i7⟩
    | true =>
      cases cc with
      | none =>
        simp only [registerPart, h0, DocSt.newShape, DocSt.emit, hb, gf, gt, gu, gm, gv]
        obtain ⟨i1, i2, i3, i4, i5, i6, i7⟩ := createdPartNoColor_inv cfg s material (none, o)
          (getCompound cfg shapes o
            ⟨s.fresh + 1, s.unique_objs, s.compounds, s.materials,
              s.visualization_materials, Ev.newShape s.fresh :: s.trace⟩).1
          (nm2 ++ "_part")
          (getCompound cfg shapes o
            ⟨s.fresh + 1, s.unique_objs, s.compounds, s.materials,
              s.visualization_materials, Ev.newShape s.fresh :: s.trace⟩).2.compounds
          hInv hkey (Or.inr rfl)
        exact ⟨i1, i2, i3, i4, i5, fun h => Bool.noConfusion h, i7⟩
      | some cv =>
        simp only [registerPart, h0, DocSt.newShape, DocSt.emit, hb, gf, gt, gu, gm, gv]
        obtain ⟨i1, i2, i3, i4, i5, i6, i7⟩ := createdPartColor_inv cfg s material (some cv, o) cv
          (getCompound cfg shapes o
            ⟨s.fresh + 1, s.unique_objs, s.compounds, s.materials,
              s.visualization_materials, Ev.newShape s.fresh :: s.trace⟩).1
          (nm2 ++ "_part")
          (getCompound cfg shapes o
            ⟨s.fresh + 1, s.unique_objs, s.compounds, s.materials,
              s.visualization_materials, Ev.newShape s.fresh :: s.trace⟩).2.compounds
          hInv hkey hb rfl
        exact ⟨i1, i2, i3, i4, i5, fun h => Bool.noConfusion h, i7⟩


/-- Creating and naming a structural node (`tool.NewShape()` + `setName`)
preserves the invariant and adds no geometry record, color or component. -/
theorem structNode_inv (cfg : Cfg) (s : DocSt) (nm2 : String) (hInv : Inv cfg s) :
    Inv cfg (DocSt.mk (s.fresh + 1) s.unique_objs s.compounds s.materials
      s.visualization_materials
      (Ev.setName s.fresh nm2 :: Ev.newShape s.fresh :: s.trace)) := by
  have hc : colorLabs (Ev.setName s.fresh nm2 :: Ev.newShape s.fresh :: s.trace)
      = colorLabs s.trace := by simp [colorLabs]
  have hg : geomLabs (Ev.setName s.fresh nm2 :: Ev.newShape s.fresh :: s.trace)
      = geomLabs s.trace := by simp [geomLabs]
  have hp : partComponentLabs (Ev.setName s.fresh nm2 :: Ev.newShape s.fresh :: s.trace)
      = partComponentLabs s.trace := by simp [partComponentLabs]
  refine ⟨hInv.nodupKeys, ?_, ?_, ?_, ?_, hInv.visEmpty, ?_, ?_, ?_, ?_, ?_⟩
  · simpa [countSetShape] using hInv.shapeCount
  · intro e he
    rcases List.mem_cons.mp he with rfl | he
    · unfold EvBound evLabels
      intro l hl
      simp at hl
      dsimp only
      omega
    rcases List.mem_cons.mp he with rfl | he
    · unfold EvBound evLabels
      intro l hl
      simp at hl
      dsimp only
      omega
    · intro l hl
      exact Nat.lt_succ_of_lt (hInv.traceBound e he l hl)
  · intro e he
    exact Nat.lt_succ_of_lt (hInv.uoBound e he)
  · intro e he
    exact Nat.lt_succ_of_lt (hInv.matBound e he)
  · intro l hl
    rw [hp] at hl
    exact hInv.partComp l hl
  · intro hb l hl
    rw [hc] at hl
    rw [hg]
    exact hInv.colorGeom hb l hl
  · intro hb
    rw [hc]
    exact hInv.colorNodup hb
  · intro hb
    rw [hc]
    exact hInv.colorCountT hb
  · intro hb l hl
    rw [hc] at hl
    rw [hg]
    exact hInv.colorStruct hb l hl

/-- Behaviour of the `if el.obj:` block: the invariant is preserved, the
fresh counter is monotone, new geometry records live at fresh labels only,
and no color is attached when colors travel with structure. -/
theorem handleObj_spec (cfg : Cfg) (nm2 : String) (shapes : List ℕ) (material : Option ℕ)
    (cc : Option ℕ) (obj : Option ℕ) (subassy : ℕ) (s : DocSt)
    (hInv : Inv cfg s) (hsub : subassy < s.fresh) :
    Inv cfg (handleObj cfg nm2 shapes material cc obj subassy s)
    ∧ s.fresh ≤ (handleObj cfg nm2 shapes material cc obj subassy s).fresh
    ∧ (∀ l ∈ geomLabs (handleObj cfg nm2 shapes material cc obj subassy s).trace,
        l ∈ geomLabs s.trace ∨ s.fresh ≤ l)
    ∧ (cfg.coloredSTEP = false →
        colorLabs (handleObj cfg nm2 shapes material cc obj subassy s).trace
          = colorLabs s.trace) := by
  cases obj with
  | none => exact ⟨hInv, le_refl _, fun l hl => Or.inl hl, fun _ => rfl⟩
  | some o =>
    obtain ⟨r1, r2, r3, r4, r5, r6, r7⟩ := registerPart_spec cfg nm2 shapes material cc o s hInv
    simp only [handleObj, DocSt.emit]
    have hce : colorLabs (Ev.addComponent subassy
          (registerPart cfg nm2 shapes material cc o s).1 LocV.ident ::
          (registerPart cfg nm2 shapes material cc o s).2.trace)
        = colorLabs (registerPart cfg nm2 shapes material cc o s).2.trace := by
      simp [colorLabs]
    have hge : geomLabs (Ev.addComponent subassy
          (registerPart cfg nm2 shapes material cc o s).1 LocV.ident ::
          (registerPart cfg nm2 shapes material cc o s).2.trace)
        = geomLabs (registerPart cfg nm2 shapes material cc o s).2.trace := by
      simp [geomLabs]
    refine ⟨⟨r1.nodupKeys, ?_, ?_, r1.uoBound, r1.matBound, r1.visEmpty, ?_, ?_, ?_, ?_, ?_⟩,
      r2, ?_, ?_⟩
    · simpa [countSetShape] using r1.shapeCount
    · intro e he
      rcases List.mem_cons.mp he with rfl | he
      · unfold EvBound evLabels
        intro l hl
        simp at hl
        dsimp only
        rcases hl with rfl | rfl
        · omega
        · omega
      · exact r1.traceBound e he
    · intro l hl
      simp only [partComponentLabs, List.filterMap_cons] at hl ⊢
      rcases List.mem_cons.mp hl with rfl | hl
      · exact r4
      · exact r1.partComp l hl
    · intro hb l hl
      rw [hce] at hl
      rw [hge]
      exact r1.colorGeom hb l hl
    · intro hb
      rw [hce]
      exact r1.colorNodup hb
    · intro hb
      rw [hce]
      exact r1.colorCountT hb
    · intro hb l hl
      rw [hce] at hl
      rw [hge]
      exact r1.colorStruct hb l hl
    · intro l hl
      rw [hge] at hl
      exact r5 l hl
    · intro hb
      rw [hce]
      exact r6 hb

/-- Behaviour of the structural color attachment: when not exporting to STEP
it adds exactly one color (on the structural node, never a geometry record)
per present effective color; when exporting to STEP it does nothing. -/
theorem structColor_spec (cfg : Cfg) (cc : Option ℕ) (subassy : ℕ) (s : DocSt)
    (hInv : Inv cfg s) (hsub : subassy < s.fresh) (hng : subassy ∉ geomLabs s.trace) :
    Inv cfg (structColor cfg cc subassy s)
    ∧ (structColor cfg cc subassy s).fresh = s.fresh
    ∧ geomLabs (structColor cfg cc subassy s).trace = geomLabs s.trace
    ∧ (cfg.coloredSTEP = false →
        (colorLabs (structColor cfg cc subassy s).trace).length
          = (colorLabs s.trace).length + (if cc.isSome then 1 else 0)) := by
  cases hb : cfg.coloredSTEP with
  | true =>
    have heq : structColor cfg cc subassy s = s := by
      simp [structColor, hb]
    rw [heq]
    exact ⟨hInv, by trivial, by trivial, fun hf => Bool.noConfusion hf⟩
  | false =>
    cases cc with
    | none =>
      have heq : structColor cfg none subassy s = s := by
        simp [structColor, hb]
      rw [heq]
      exact ⟨hInv, by trivial, by trivial, fun _ => by simp⟩
    | some c =>
      simp only [structColor, hb, DocSt.emit]
      have hce : colorLabs (Ev.setColor subassy c :: s.trace)
          = subassy :: colorLabs s.trace := by simp [colorLabs]
      have hge : geomLabs (Ev.setColor subassy c :: s.trace) = geomLabs s.trace := by
        simp [geomLabs]
      have hpe : partComponentLabs (Ev.setColor subassy c :: s.trace)
          = partComponentLabs s.trace := by simp [partComponentLabs]
      refine ⟨⟨hInv.nodupKeys, ?_, ?_, hInv.uoBound, hInv.matBound, hInv.visEmpty,
        ?_, ?_, ?_, ?_, ?_⟩, by trivial, hge, ?_⟩
      · simpa [countSetShape] using hInv.shapeCount
      · intro e he
        rcases List.mem_cons.mp he with rfl | he
        · unfold EvBound evLabels
          intro l hl
          simp at hl
          dsimp only
          omega
        · exact hInv.traceBound e he
      · intro l hl
        rw [hpe] at hl
        exact hInv.partComp l hl
      · intro hf
        exact absurd (hb.symm.trans hf) (by simp)
      · intro hf
        exact absurd (hb.symm.trans hf) (by simp)
      · intro hf
        exact absurd (hb.symm.trans hf) (by simp)
      · intro hf l hl
        rw [hce] at hl
        rw [hge]
        rcases List.mem_cons.mp hl with rfl | hl
        · exact hng
        · exact hInv.colorStruct hb l hl
      · intro _
        rw [hce]
        simp

/-- Behaviour of the final ancestor link: invariant preserved, fresh counter
and color attachments untouched. -/
theorem linkToAncestor_spec (anc : Option ℕ) (subassy loc : ℕ) (cfg : Cfg) (s : DocSt)
    (hInv : Inv cfg s) (hanc : ∀ l, anc = some l → l < s.fresh) (hsub : subassy < s.fresh) :
    Inv cfg (linkToAncestor anc subassy loc s)
    ∧ (linkToAncestor anc subassy loc s).fresh = s.fresh
    ∧ colorLabs (linkToAncestor anc subassy loc s).trace = colorLabs s.trace := by
  cases anc with
  | none => exact ⟨hInv, rfl, rfl⟩
  | some a =>
    have ha : a < s.fresh := hanc a rfl
    simp only [linkToAncestor, DocSt.emit]
    have hce : colorLabs (Ev.addComponent a subassy (LocV.of loc) :: s.trace)
        = colorLabs s.trace := by simp [colorLabs]
    have hge : geomLabs (Ev.addComponent a subassy (LocV.of loc) :: s.trace)
        = geomLabs s.trace := by simp [geomLabs]
    have hpe : partComponentLabs (Ev.addComponent a subassy (LocV.of loc) :: s.trace)
        = partComponentLabs s.trace := by simp [partComponentLabs]
    refine ⟨⟨hInv.nodupKeys, ?_, ?_, hInv.uoBound, hInv.matBound, hInv.visEmpty,
      ?_, ?_, ?_, ?_, ?_⟩, by trivial, hce⟩
    · simpa [countSetShape] using hInv.shapeCount
    · intro e he
      rcases List.mem_cons.mp he with rfl | he
      · unfold EvBound evLabels
        intro l hl
        simp at hl
        rcases hl with rfl | rfl
        · exact ha
        · exact hsub
      · exact hInv.traceBound e he
    · intro l hl
      rw [hpe] at hl
      exact hInv.partComp l hl
    · intro hb l hl
      rw [hce] at hl
      rw [hge]
      exact hInv.colorGeom hb l hl
    · intro hb
      rw [hce]
      exact hInv.colorNodup hb
    · intro hb
      rw [hce]
      exact hInv.colorCountT hb
    · intro hb l hl
      rw [hce] at hl
      rw [hge]
      exact hInv.colorStruct hb l hl


/-- The child loop satisfies `ChildrenSpec` as soon as every child satisfies
`NodeSpec`. -/
theorem toCAFchildren_spec_of (cfg : Cfg) (l : List Assembly)
    (ih : ∀ a ∈ l, NodeSpec cfg a) : ChildrenSpec cfg l := by
  induction l with
  | nil =>
    intro parent inh s hp hInv
    exact ⟨hInv, le_refl _, fun _ => by simp [toCAFchildren, coloredCountList]⟩
  | cons c cs ihl =>
    intro parent inh s hp hInv
    obtain ⟨n1, n2, n3, n4⟩ := ih c (List.mem_cons_self _ _) (some parent) inh s
      (fun l2 hl2 => by cases Option.some.inj hl2; exact hp) hInv
    obtain ⟨c1, c2, c3⟩ := ihl (fun a ha => ih a (List.mem_cons_of_mem _ ha)) parent inh
      (toCAFnode cfg c (some parent) inh s).2 (lt_of_lt_of_le hp n2) n1
    refine ⟨c1, le_trans n2 c2, ?_⟩
    intro hb
    have e1 := c3 hb
    have e2 := n4 hb
    show (colorLabs (toCAFchildren cfg cs parent inh
        (toCAFnode cfg c (some parent) inh s).2).trace).length = _
    rw [e1, e2]
    have e3 : coloredCountList (c :: cs) inh
        = coloredCount c inh + coloredCountList cs inh := rfl
    rw [e3]
    omega


/-- One step of `toCAFnode` unfolded into its stages. -/
theorem toCAFnode_unfold (cfg : Cfg) (n : String) (loc : ℕ) (obj : Option ℕ) (shapes : List ℕ)
    (color material : Option ℕ) (children : List Assembly) (anc inh : Option ℕ) (s : DocSt) :
    toCAFnode cfg (.node n loc obj shapes color material children) anc inh s
      = (s.fresh, linkToAncestor anc s.fresh loc
          (toCAFchildren cfg children s.fresh (effColor color inh)
            (structColor cfg (effColor color inh) s.fresh
              (handleObj cfg n shapes material (effColor color inh) obj s.fresh
                (DocSt.mk (s.fresh + 1) s.unique_objs s.compounds s.materials
                  s.visualization_materials
                  (Ev.setName s.fresh n :: Ev.newShape s.fresh :: s.trace)))))) := by
  simp only [toCAFnode, DocSt.newShape, DocSt.emit]

/-- Every assembly node satisfies `NodeSpec`: one recursive `_toCAF` call
preserves the document invariant, allocates monotonically, returns its
structural label, and (when colors go on structure) attaches exactly one
color per colored node of the subtree. -/
theorem toCAFnode_spec (cfg : Cfg) : ∀ a : Assembly, NodeSpec cfg a := by
  refine Assembly.inductOn _ ?_
  intro n loc obj shapes color material children ihch
  have hch : ChildrenSpec cfg children := toCAFchildren_spec_of cfg children ihch
  intro anc inh s hanc hInv
  rw [toCAFnode_unfold]
  have h1 : Inv cfg (DocSt.mk (s.fresh + 1) s.unique_objs s.compounds s.materials
      s.visualization_materials
      (Ev.setName s.fresh n :: Ev.newShape s.fresh :: s.trace)) :=
    structNode_inv cfg s n hInv
  obtain ⟨o1, o2, o3, o4⟩ := handleObj_spec cfg n shapes material
    (effColor color inh) obj s.fresh
    (DocSt.mk (s.fresh + 1) s.unique_objs s.compounds s.materials
      s.visualization_materials
      (Ev.setName s.fresh n :: Ev.newShape s.fresh :: s.trace)) h1
    (Nat.lt_succ_self s.fresh)
  have o2n : s.fresh + 1 ≤ (handleObj cfg n shapes material
      (effColor color inh) obj s.fresh
      (DocSt.mk (s.fresh + 1) s.unique_objs s.compounds s.materials
        s.visualization_materials
        (Ev.setName s.fresh n :: Ev.newShape s.fresh :: s.trace))).fresh := o2
  have hgs1 : geomLabs (DocSt.mk (s.fresh + 1) s.unique_objs s.compounds s.materials
      s.visualization_materials
      (Ev.setName s.fresh n :: Ev.newShape s.fresh :: s.trace)).trace
      = geomLabs s.trace := by
    dsimp only
    simp [geomLabs]
  have hcs1 : colorLabs (DocSt.mk (s.fresh + 1) s.unique_objs s.compounds s.materials
      s.visualization_materials
      (Ev.setName s.fresh n :: Ev.newShape s.fresh :: s.trace)).trace
      = colorLabs s.trace := by
    dsimp only
    simp [colorLabs]
  have hngs : s.fresh ∉ geomLabs (handleObj cfg n shapes material
      (effColor color inh) obj s.fresh
      (DocSt.mk (s.fresh + 1) s.unique_objs s.compounds s.materials
        s.visualization_materials
        (Ev.setName s.fresh n :: Ev.newShape s.fresh :: s.trace))).trace := by
    intro hmem
    rcases o3 _ hmem with hin | hge
    · rw [hgs1] at hin
      have := geomLabs_lt s.trace s.fresh hInv.traceBound _ hin
      omega
    · have h2 : s.fresh + 1 ≤ s.fresh := hge
      omega
  obtain ⟨t1, t2, t3, t4⟩ := structColor_spec cfg (effColor color inh) s.fresh
    (handleObj cfg n shapes material (effColor color inh) obj s.fresh
      (DocSt.mk (s.fresh + 1) s.unique_objs s.compounds s.materials
        s.visualization_materials
        (Ev.setName s.fresh n :: Ev.newShape s.fresh :: s.trace))) o1
    (by omega) hngs
  have t2n : (structColor cfg (effColor color inh) s.fresh
      (handleObj cfg n shapes material (effColor color inh) obj s.fresh
        (DocSt.mk (s.fresh + 1) s.unique_objs s.compounds s.materials
          s.visualization_materials
          (Ev.setName s.fresh n :: Ev.newShape s.fresh :: s.trace)))).fresh
      = (handleObj cfg n shapes material (effColor color inh) obj s.fresh
        (DocSt.mk (s.fresh + 1) s.unique_objs s.compounds s.materials
          s.visualization_materials
          (Ev.setName s.fresh n :: Ev.newShape s.fresh :: s.trace))).fresh := t2
  obtain ⟨u1, u2, u3⟩ := hch s.fresh (effColor color inh)
    (structColor cfg (effColor color inh) s.fresh
      (handleObj cfg n shapes material (effColor color inh) obj s.fresh
        (DocSt.mk (s.fresh + 1) s.unique_objs s.compounds s.materials
          s.visualization_materials
          (Ev.setName s.fresh n :: Ev.newShape s.fresh :: s.trace))))
    (by omega) t1
  obtain ⟨v1, v2, v3⟩ := linkToAncestor_spec anc s.fresh loc cfg
    (toCAFchildren cfg children s.fresh (effColor color inh)
      (structColor cfg (effColor color inh) s.fresh
        (handleObj cfg n shapes material (effColor color inh) obj s.fresh
          (DocSt.mk (s.fresh + 1) s.unique_objs s.compounds s.materials
            s.visualization_materials
            (Ev.setName s.fresh n :: Ev.newShape s.fresh :: s.trace))))) u1
    (fun l2 hl2 => by have := hanc l2 hl2; omega) (by omega)
  refine ⟨v1, by dsimp only; omega, by dsimp only; omega, ?_⟩
  intro hb
  have e1 := u3 hb
  have e2 := t4 hb
  have e3 := o4 hb
  show (colorLabs (linkToAncestor anc s.fresh loc
      (toCAFchildren cfg children s.fresh (effColor color inh)
        (structColor cfg (effColor color inh) s.fresh
          (handleObj cfg n shapes material (effColor color inh) obj s.fresh
            (DocSt.mk (s.fresh + 1) s.unique_objs s.compounds s.materials
              s.visualization_materials
              (Ev.setName s.fresh n :: Ev.newShape s.fresh :: s.trace)))))).trace).length = _
  rw [v3, e1, e2, e3, hcs1]
  have e4 : coloredCount (.node n loc obj shapes color material children) inh
      = (if (effColor color inh).isSome then 1 else 0)
        + coloredCountList children (effColor color inh) := rfl
  rw [e4]
  omega


/-! ## Claims C3 and C9 -/

/-- C3: within one `toCAF` call, the deduplication keys registered in
`unique_objs` are pairwise distinct and geometry records (`SetShape` calls)
are created exactly once per registered key, so the same (effective color,
shape) pair is never given two distinct geometry records; moreover every part
reference linked from a structural node points at a registered record, so a
second occurrence of a pair reuses the record created for the first. -/
theorem toCAF_dedup_unique (cfg : Cfg) (a : Assembly) :
    ((toCAF cfg a).2.unique_objs.map Prod.fst).Nodup
    ∧ countSetShape (toCAF cfg a).2.trace = (toCAF cfg a).2.unique_objs.length
    ∧ ∀ l ∈ partComponentLabs (toCAF cfg a).2.trace,
        l ∈ (toCAF cfg a).2.unique_objs.map Prod.snd := by
  obtain ⟨i1, _, _, _⟩ := toCAFnode_spec cfg a none none DocSt.init
    (fun l hl => Option.noConfusion hl) (Inv.initial cfg)
  exact ⟨i1.nodupKeys, i1.shapeCount, i1.partComp⟩

/-- C3 applied to a concrete assembly in which two nodes carry the same
(color, shape) pair. -/
theorem toCAF_dedup_unique_witness :
    (((toCAF ⟨true, false⟩ dedupDemoAssy).2.unique_objs.map Prod.fst).Nodup
      ∧ countSetShape (toCAF ⟨true, false⟩ dedupDemoAssy).2.trace
          = (toCAF ⟨true, false⟩ dedupDemoAssy).2.unique_objs.length
      ∧ ∀ l ∈ partComponentLabs (toCAF ⟨true, false⟩ dedupDemoAssy).2.trace,
          l ∈ (toCAF ⟨true, false⟩ dedupDemoAssy).2.unique_objs.map Prod.snd)
    ∧ (toCAF ⟨true, false⟩ dedupDemoAssy).2.unique_objs.length = 1 :=
  ⟨toCAF_dedup_unique ⟨true, false⟩ dedupDemoAssy, rfl⟩

/-- C9: in one `toCAF` call, when `coloredSTEP` is true every color is
attached to a geometry record (a label that received a shape payload), each
such record is colored at most once (at creation time), and there is exactly
one color attachment per deduplicated key with a present effective color;
when `coloredSTEP` is false no color is ever attached to a geometry record,
and there is exactly one color attachment per node with a present effective
color (on its structural node). -/
theorem toCAF_color_placement (cfg : Cfg) (a : Assembly) :
    (cfg.coloredSTEP = true →
       (∀ l ∈ colorLabs (toCAF cfg a).2.trace, l ∈ geomLabs (toCAF cfg a).2.trace)
       ∧ (colorLabs (toCAF cfg a).2.trace).Nodup
       ∧ (colorLabs (toCAF cfg a).2.trace).length
           = ((toCAF cfg a).2.unique_objs.filter fun e => e.1.1.isSome).length)
    ∧ (cfg.coloredSTEP = false →
       (∀ l ∈ colorLabs (toCAF cfg a).2.trace, l ∉ geomLabs (toCAF cfg a).2.trace)
       ∧ (colorLabs (toCAF cfg a).2.trace).length = coloredCount a none) := by
  obtain ⟨i1, _, _, i4⟩ := toCAFnode_spec cfg a none none DocSt.init
    (fun l hl => Option.noConfusion hl) (Inv.initial cfg)
  refine ⟨fun hb => ⟨i1.colorGeom hb, i1.colorNodup hb, i1.colorCountT hb⟩,
    fun hb => ⟨i1.colorStruct hb, ?_⟩⟩
  have h5 := i4 hb
  simpa [DocSt.init, colorLabs] using h5

/-- C9 applied to a concrete assembly, in the colors-on-structure mode. -/
theorem toCAF_color_placement_witness :
    ((∀ l ∈ colorLabs (toCAF ⟨false, false⟩ colorDemoAssy).2.trace,
        l ∉ geomLabs (toCAF ⟨false, false⟩ colorDemoAssy).2.trace)
      ∧ (colorLabs (toCAF ⟨false, false⟩ colorDemoAssy).2.trace).length
          = coloredCount colorDemoAssy none)
    ∧ coloredCount colorDemoAssy none = 2 :=
  ⟨(toCAF_color_placement ⟨false, false⟩ colorDemoAssy).2 rfl, rfl⟩


/-! ## Claims C7 and C8 -/

/-- C7: `toFusedCAF` invoked on an assembly whose flattened iteration yields
zero shapes raises an error whose message names the assembly, and returns no
document. -/
theorem toFusedCAF_empty_raises (K : FuseKernel) (assy : AssemblyIter) (glue : Bool)
    (tol : Option ℚ) (h : assy.items = []) :
    toFusedCAF K assy glue tol
      = .error ("Error: Assembly " ++ assy.name ++ " has no shapes.") := by
  simp [toFusedCAF, h]

/-- C7 applied to a concrete empty assembly. -/
theorem toFusedCAF_empty_raises_witness :
    toFusedCAF demoFuseK ⟨"empty", []⟩ false none
      = .error ("Error: Assembly " ++ (⟨"empty", []⟩ : AssemblyIter).name
          ++ " has no shapes.") :=
  toFusedCAF_empty_raises demoFuseK ⟨"empty", []⟩ false none rfl

/-- C8: when the flattened assembly yields exactly one shape: if the (moved,
copied) shape is not a compound, the top-level document shape is a
single-member compound wrapping it, the fuse operation is left unbuilt and
`Shape.fuse` is not invoked, and the face pass runs over the one-element list
holding that shape; if it is a compound, it is fused against itself via
`Shape.fuse`, the self-fused result is wrapped in a single-member compound,
and the face pass runs over the one-element list holding the self-fused
shape. -/
theorem toFusedCAF_single_shape (K : FuseKernel) (assy : AssemblyIter) (glue : Bool)
    (tol : Option ℚ) (sh : FShape) (nm2 : String) (loc : ℕ) (c : Option ColorQ)
    (h : assy.items = [(sh, nm2, loc, c)]) :
    ((K.copy (K.moved sh loc)).ShapeType ≠ "Compound" →
      toFusedCAF K assy glue tol = .ok
        ⟨makeCompound [K.copy (K.moved sh loc)], ⟨none, false, [], [], false⟩,
          [(c, K.copy (K.moved sh loc))],
          colorPass K ⟨none, false, [], [], false⟩ (makeCompound [K.copy (K.moved sh loc)])
            [(c, K.copy (K.moved sh loc))]⟩)
    ∧ ((K.copy (K.moved sh loc)).ShapeType = "Compound" →
      toFusedCAF K assy glue tol = .ok
        ⟨makeCompound [K.selfFuse (K.copy (K.moved sh loc)) glue tol],
          ⟨none, false, [], [], false⟩,
          [(c, K.selfFuse (K.copy (K.moved sh loc)) glue tol)],
          colorPass K ⟨none, false, [], [], false⟩
            (makeCompound [K.selfFuse (K.copy (K.moved sh loc)) glue tol])
            [(c, K.selfFuse (K.copy (K.moved sh loc)) glue tol)]⟩) := by
  constructor
  · intro hnc
    simp [toFusedCAF, h, hnc]
  · intro hc
    simp [toFusedCAF, h, hc]

/-- C8 applied to concrete single-shape assemblies, one non-compound and one
compound. -/
theorem toFusedCAF_single_shape_witness :
    toFusedCAF demoFuseK ⟨"one", [(shNC, "p", 0, some cRed)]⟩ false none
      = .ok ⟨makeCompound [shNC], ⟨none, false, [], [], false⟩, [(some cRed, shNC)],
          colorPass demoFuseK ⟨none, false, [], [], false⟩ (makeCompound [shNC])
            [(some cRed, shNC)]⟩
    ∧ toFusedCAF demoFuseK ⟨"two", [(shCP, "p", 0, some cRed)]⟩ false none
      = .ok ⟨makeCompound [shCP], ⟨none, false, [], [], false⟩, [(some cRed, shCP)],
          colorPass demoFuseK ⟨none, false, [], [], false⟩ (makeCompound [shCP])
            [(some cRed, shCP)]⟩ :=
  ⟨(toFusedCAF_single_shape demoFuseK ⟨"one", [(shNC, "p", 0, some cRed)]⟩ false none
      shNC "p" 0 (some cRed) rfl).1 (by decide),
   (toFusedCAF_single_shape demoFuseK ⟨"two", [(shCP, "p", 0, some cRed)]⟩ false none
      shCP "p" 0 (some cRed) rfl).2 rfl⟩


/-! ## Claim C1: membership characterization of the face pass -/

theorem mem_subColorStep (K : FuseKernel) (op : FuseOpSt) (top : FShape)
    (color : Option ColorQ) (tr : List FEv) (f : ℕ) (x : FEv) :
    x ∈ subColorStep K op top color tr f ↔
      x ∈ tr ∨ x = FEv.reg f (K.addSubNonNull top f)
      ∨ ∃ c, color = some c ∧ K.addSubNonNull top f = true
          ∧ K.isDeleted op f = false ∧ x = FEv.col f c := by
  cases color with
  | none =>
    simp only [subColorStep, List.mem_cons]
    constructor
    · rintro (rfl | hx)
      · exact Or.inr (Or.inl rfl)
      · exact Or.inl hx
    · rintro (hx | rfl | ⟨c, hc, _⟩)
      · exact Or.inr hx
      · exact Or.inl rfl
      · exact Option.noConfusion hc
  | some c =>
    simp only [subColorStep]
    by_cases hcond : (K.addSubNonNull top f && !K.isDeleted op f) = true
    · rw [if_pos hcond]
      rw [Bool.and_eq_true, Bool.not_eq_true'] at hcond
      simp only [List.mem_cons]
      constructor
      · rintro (rfl | rfl | hx)
        · exact Or.inr (Or.inr ⟨c, rfl, hcond.1, hcond.2, rfl⟩)
        · exact Or.inr (Or.inl rfl)
        · exact Or.inl hx
      · rintro (hx | rfl | ⟨c2, hc2, h3, h4, rfl⟩)
        · exact Or.inr (Or.inr hx)
        · exact Or.inr (Or.inl rfl)
        · cases Option.some.inj hc2
          exact Or.inl rfl
    · rw [if_neg hcond]
      rw [Bool.and_eq_true, Bool.not_eq_true'] at hcond
      simp only [List.mem_cons]
      constructor
      · rintro (rfl | hx)
        · exact Or.inr (Or.inl rfl)
        · exact Or.inl hx
      · rintro (hx | rfl | ⟨c2, hc2, h3, h4, rfl⟩)
        · exact Or.inr hx
        · exact Or.inl rfl
        · exact absurd ⟨h3, h4⟩ hcond

theorem mem_genColorStep (K : FuseKernel) (op : FuseOpSt) (top : FShape)
    (color : Option ColorQ) (tr : List FEv) (f : ℕ) (x : FEv) :
    x ∈ genColorStep K op top color tr f ↔
      x ∈ tr ∨ x = FEv.reg f (K.addSubNonNull top f)
      ∨ ∃ c, color = some c ∧ K.addSubNonNull top f = true ∧ x = FEv.col f c := by
  cases color with
  | none =>
    simp only [genColorStep, List.mem_cons]
    constructor
    · rintro (rfl | hx)
      · exact Or.inr (Or.inl rfl)
      · exact Or.inl hx
    · rintro (hx | rfl | ⟨c, hc, _⟩)
      · exact Or.inr hx
      · exact Or.inl rfl
      · exact Option.noConfusion hc
  | some c =>
    simp only [genColorStep]
    by_cases hcond : K.addSubNonNull top f = true
    · rw [if_pos hcond]
      simp only [List.mem_cons]
      constructor
      · rintro (rfl | rfl | hx)
        · exact Or.inr (Or.inr ⟨c, rfl, hcond, rfl⟩)
        · exact Or.inr (Or.inl rfl)
        · exact Or.inl hx
      · rintro (hx | rfl | ⟨c2, hc2, h3, rfl⟩)
        · exact Or.inr (Or.inr hx)
        · exact Or.inr (Or.inl rfl)
        · cases Option.some.inj hc2
          exact Or.inl rfl
    · rw [if_neg hcond]
      simp only [List.mem_cons]
      constructor
      · rintro (rfl | hx)
        · exact Or.inr (Or.inl rfl)
        · exact Or.inl hx
      · rintro (hx | rfl | ⟨c2, hc2, h3, rfl⟩)
        · exact Or.inr hx
        · exact Or.inl rfl
        · exact absurd h3 hcond

theorem mem_foldl_of_step {α : Type} (step : List FEv → α → List FEv)
    (Q : α → FEv → Prop)
    (hstep : ∀ tr g x, x ∈ step tr g ↔ x ∈ tr ∨ Q g x) :
    ∀ (l : List α) (tr : List FEv) (x : FEv),
      x ∈ l.foldl step tr ↔ x ∈ tr ∨ ∃ g ∈ l, Q g x := by
  intro l
  induction l with
  | nil => simp
  | cons a as ih =>
    intro tr x
    simp only [List.foldl_cons]
    rw [ih, hstep]
    constructor
    · rintro ((hx | hq) | ⟨g, hg, hq⟩)
      · exact Or.inl hx
      · exact Or.inr ⟨a, List.mem_cons_self _ _, hq⟩
      · exact Or.inr ⟨g, List.mem_cons_of_mem _ hg, hq⟩
    · rintro (hx | ⟨g, hg, hq⟩)
      · exact Or.inl (Or.inl hx)
      · rcases List.mem_cons.mp hg with rfl | hg
        · exact Or.inl (Or.inr hq)
        · exact Or.inr ⟨g, hg, hq⟩

theorem mem_faceStep (K : FuseKernel) (op : FuseOpSt) (top : FShape)
    (color : Option ColorQ) (tr : List FEv) (f : ℕ) (x : FEv) :
    x ∈ faceStep K op top color tr f ↔ x ∈ tr ∨ faceEvOf K op top color f x := by
  simp only [faceStep, faceEvOf]
  rw [mem_foldl_of_step (genColorStep K op top color) _
    (fun tr2 g x2 => mem_genColorStep K op top color tr2 g x2)]
  rw [mem_foldl_of_step (subColorStep K op top color) _
    (fun tr2 m x2 => mem_subColorStep K op top color tr2 m x2)]
  rw [mem_subColorStep]
  constructor
  · rintro ((hin | hmods) | hgens)
    · rcases hin with hx | h1 | h2
      · exact Or.inl hx
      · exact Or.inr (Or.inl (Or.inl h1))
      · exact Or.inr (Or.inl (Or.inr h2))
    · exact Or.inr (Or.inr (Or.inl hmods))
    · exact Or.inr (Or.inr (Or.inr hgens))
  · rintro (hx | (h1 | h2) | hmods | hgens)
    · exact Or.inl (Or.inl (Or.inl hx))
    · exact Or.inl (Or.inl (Or.inr (Or.inl h1)))
    · exact Or.inl (Or.inl (Or.inr (Or.inr h2)))
    · exact Or.inl (Or.inr hmods)
    · exact Or.inr hgens

theorem mem_shapeStep (K : FuseKernel) (op : FuseOpSt) (top : FShape)
    (tr : List FEv) (p : Option ColorQ × FShape) (x : FEv) :
    x ∈ shapeStep K op top tr p ↔
      x ∈ tr ∨ ∃ f ∈ p.2.Faces, faceEvOf K op top p.1 f x := by
  simp only [shapeStep]
  exact mem_foldl_of_step (faceStep K op top p.1) _
    (fun tr2 f x2 => mem_faceStep K op top p.1 tr2 f x2) p.2.Faces tr x

theorem mem_colorPass (K : FuseKernel) (op : FuseOpSt) (top : FShape)
    (pairs : List (Option ColorQ × FShape)) (x : FEv) :
    x ∈ colorPass K op top pairs ↔
      ∃ p ∈ pairs, ∃ f ∈ p.2.Faces, faceEvOf K op top p.1 f x := by
  simp only [colorPass]
  rw [mem_foldl_of_step (shapeStep K op top) _
    (fun tr2 p x2 => mem_shapeStep K op top tr2 p x2)]
  simp

/-- A successful `toFusedCAF` run's trace is the face pass over its own
pairs, fuse-operation state and top shape. -/
theorem toFusedCAF_ok_trace (K : FuseKernel) (assy : AssemblyIter) (glue : Bool)
    (tol : Option ℚ) (out : FusedOut) (h : toFusedCAF K assy glue tol = .ok out) :
    out.trace = colorPass K out.op out.top out.pairs := by
  rcases hit : assy.items with _ | ⟨x0, _ | ⟨x1, rest⟩⟩
  · simp [toFusedCAF, hit] at h
  · by_cases hc : (K.copy (K.moved x0.1 x0.2.2.1)).ShapeType = "Compound"
    · simp only [toFusedCAF, hit, List.map_cons, List.map_nil, hc, ne_eq,
        not_true_eq_false, if_false, List.zip_cons_cons, List.zip_nil_right,
        Except.ok.injEq] at h
      subst h
      rfl
    · simp only [toFusedCAF, hit, List.map_cons, List.map_nil, ne_eq, hc,
        not_false_eq_true, if_true, List.zip_cons_cons, List.zip_nil_right,
        Except.ok.injEq] at h
      subst h
      rfl
  · simp only [toFusedCAF, hit, List.map_cons, Except.ok.injEq] at h
    subst h
    rfl

/-- C1: in a successful `toFusedCAF` run, the face-pass trace contains
exactly the events described by `faceEvOf` for the original pre-fuse faces:
each original face (of a pair from `zip(colors, shapes)`) is registered, and
is colored only when its color is recorded, its sub-shape label is non-null
and the fuse does not report it deleted; each face reported modified from it
is registered and colored under the same non-null and not-deleted guard; and
each face reported generated from it is registered and colored under only
the non-null guard, with no deletion check. -/
theorem toFusedCAF_face_colors (K : FuseKernel) (assy : AssemblyIter) (glue : Bool)
    (tol : Option ℚ) (out : FusedOut) (h : toFusedCAF K assy glue tol = .ok out)
    (x : FEv) :
    x ∈ out.trace ↔
      ∃ p ∈ out.pairs, ∃ f ∈ p.2.Faces, faceEvOf K out.op out.top p.1 f x := by
  rw [toFusedCAF_ok_trace K assy glue tol out h]
  exact mem_colorPass K out.op out.top out.pairs x

/-- C1 applied to a concrete two-shape assembly and kernel model, at the
event coloring the face modified from face 0. -/
theorem toFusedCAF_face_colors_witness :
    FEv.col 10 cRed ∈ demoFusedOut.trace ↔
      ∃ p ∈ demoFusedOut.pairs, ∃ f ∈ p.2.Faces,
        faceEvOf demoFuseK demoFusedOut.op demoFusedOut.top p.1 f (FEv.col 10 cRed) :=
  toFusedCAF_face_colors demoFuseK multiAssy false none demoFusedOut (by rfl)
    (FEv.col 10 cRed)


/-! ## Claims C2 and C6 -/

theorem mapM_dget_ok (d : List (ℕ × String)) (nm : ℕ → String) :
    ∀ l : List ℕ, (∀ el ∈ l, alookup d el = some (nm el)) →
      l.mapM (fun el => dget d el) = .ok (l.map nm) := by
  intro l
  induction l with
  | nil => intro _; rfl
  | cons a as ih =>
    intro h
    have ha : dget d a = .ok (nm a) := by
      unfold dget
      rw [h a (List.mem_cons_self _ _)]
    rw [List.mapM_cons, ha, ih (fun el hel => h el (List.mem_cons_of_mem _ hel))]
    rfl

theorem originEntry_ok (K : ConnKernel) (args : List ℕ) (d : List (ℕ × String))
    (nm : ℕ → String) (s : ℕ)
    (h1 : ∀ el ∈ K.getOrigins args s, alookup d el = some (nm el))
    (h2 : K.getOrigins args s = [] → alookup d s = some (nm s)) :
    originEntry K args d s = .ok (s,
      if K.getOrigins args s = [] then [nm s] else (K.getOrigins args s).map nm) := by
  unfold originEntry
  rw [mapM_dget_ok d nm _ h1]
  cases hos : K.getOrigins args s with
  | nil =>
    have hd : dget d s = .ok (nm s) := by
      unfold dget
      rw [h2 hos]
    simp [hd]
    rfl
  | cons e es =>
    simp
    rfl

theorem mapM_originEntry_ok (K : ConnKernel) (args : List ℕ) (d : List (ℕ × String))
    (nm : ℕ → String) :
    ∀ res : List ℕ,
      (∀ s ∈ res, ∀ el ∈ K.getOrigins args s, alookup d el = some (nm el)) →
      (∀ s ∈ res, K.getOrigins args s = [] → alookup d s = some (nm s)) →
      res.mapM (originEntry K args d)
        = .ok (res.map fun s => (s,
            if K.getOrigins args s = [] then [nm s] else (K.getOrigins args s).map nm)) := by
  intro res
  induction res with
  | nil => intro _ _; rfl
  | cons a as ih =>
    intro h1 h2
    rw [List.mapM_cons,
      originEntry_ok K args d nm a (h1 a (List.mem_cons_self _ _))
        (h2 a (List.mem_cons_self _ _)),
      ih (fun s hs => h1 s (List.mem_cons_of_mem _ hs))
        (fun s hs => h2 s (List.mem_cons_of_mem _ hs))]
    rfl

/-- C2: for every solid of the connect result, when every needed name lookup
succeeds (`nm` giving the stored names), the origin map sends a solid with a
non-empty origin query to the tuple of the names of those origin solids in
origin-query order, and a solid whose origin query returns nothing to the
one-element tuple containing its own pre-existing name. -/
theorem imprint_origin_map (K : ConnKernel) (assy : AssemblyIter) (nm : ℕ → String)
    (h1 : ∀ s ∈ K.resSolids (imprintArgs K assy),
        ∀ el ∈ K.getOrigins (imprintArgs K assy) s,
          alookup (imprintIdMap K assy) el = some (nm el))
    (h2 : ∀ s ∈ K.resSolids (imprintArgs K assy),
        K.getOrigins (imprintArgs K assy) s = [] →
          alookup (imprintIdMap K assy) s = some (nm s)) :
    imprint K assy = .ok (K.resSolids (imprintArgs K assy),
      (K.resSolids (imprintArgs K assy)).map fun s =>
        (s, if K.getOrigins (imprintArgs K assy) s = []
            then [nm s]
            else (K.getOrigins (imprintArgs K assy) s).map nm)) := by
  show (do
      let origins ← (K.resSolids (imprintArgs K assy)).mapM
        (originEntry K (imprintArgs K assy) (imprintIdMap K assy))
      pure (K.resSolids (imprintArgs K assy), origins) :
        Except String (List ℕ × List (ℕ × List String))) = _
  rw [mapM_originEntry_ok K (imprintArgs K assy) (imprintIdMap K assy) nm
    (K.resSolids (imprintArgs K assy)) h1 h2]
  rfl

/-- C2 applied to a concrete kernel model in which solids 1 and 2 merge into
solid 5 while solid 1 also passes through unmodified. -/
theorem imprint_origin_map_witness :
    imprint demoConnK connAssy = .ok ([1, 5], [(1, ["a"]), (5, ["a", "b"])]) :=
  imprint_origin_map demoConnK connAssy (fun k => if k = 1 then "a" else "b")
    (by decide) (by decide)

/-- C6, counterexample: `imprint` on an assembly contributing zero solids
does NOT fail with an error naming the assembly — there is no empty-input
check in `imprint` at all (the function never reads `assy.name`) — and under
a kernel model where connecting zero solids yields zero solids it plainly
returns an empty result. -/
theorem imprint_empty_returns_result :
    imprint demoConnK ⟨"empty", []⟩ = .ok ([], []) := rfl

/-- C6, amended: `imprint` performs no empty-input validation; on an
assembly that contributes zero solids it builds an empty name map, submits
zero arguments to the kernel connect operation, and (when the kernel yields
zero result solids) returns an empty compound and an empty origin map
rather than raising an error naming the assembly. -/
theorem imprint_empty_no_check (K : ConnKernel) (assy : AssemblyIter)
    (h : assy.items = []) (hres : K.resSolids [] = []) :
    imprint K assy = .ok ([], []) := by
  unfold imprint imprintArgs imprintIdMap
  rw [h]
  simp only [List.foldl_nil, List.map_nil, hres]
  rfl

/-- C6 amended, applied to a concrete kernel and empty assembly. -/
theorem imprint_empty_no_check_witness :
    imprint demoConnK ⟨"emptyW", []⟩ = .ok ([], []) :=
  imprint_empty_no_check demoConnK ⟨"emptyW", []⟩ rfl rfl

end CadQuery
